import Mathlib

/-!
Response builder of `lib/http_response.c`

A shallow embedding of the response builder of `lib/http_response.c` and the
properties of it that were checked.

Conventions of the embedding.

* A `char` is a `Char`; a C string argument is the list of its characters,
  the terminating NUL left out, so `strlen` is the length of the list.
* The heap block behind `response->data` is a `List Char` whose length is the
  size of the allocation.  `malloc` and the tail of a growing `realloc` hold
  indeterminate bytes in C; here they hold NUL.  Allocation itself is taken
  to succeed.
* An `int` is an `Int`; an operation whose result leaves the 32-bit range is
  a fault, as are a failing `assert` and a `memcpy`/`memcmp` that touches
  bytes outside the block.  Every function that can fault returns
  `Except Fault _`.
-/

namespace HttpResponse

/-- Ways in which a call leaves the defined behaviour of the C program. -/
inductive Fault where
  /-- an `assert` fails -/
  | assertion
  /-- signed `int` arithmetic leaves the range of `int` -/
  | overflow
  /-- `memcpy` or `memcmp` touches bytes outside the heap block -/
  | bounds
  /-- a loop never exits -/
  | diverge
  deriving DecidableEq

deriving instance DecidableEq for Except

def INT_MAX : Int := 2147483647

def INT_MIN : Int := -2147483648

/-- The value of an `int` expression: overflow is a fault. -/
def int_op (x : Int) : Except Fault Int :=
  if INT_MIN ≤ x ∧ x ≤ INT_MAX then .ok x else .error .overflow

/-- The C `assert`. -/
def c_assert (b : Bool) : Except Fault Unit :=
  if b then .ok () else .error .assertion

/-- Mirror of `struct http_response_s`, lines 23-30. -/
structure http_response_t where
  complete : Int
  disconnect : Int
  data : List Char
  data_size : Int
  data_length : Int
  deriving DecidableEq

def strlen (s : List Char) : Int := s.length

def malloc (n : Int) : List Char := List.replicate n.toNat (Char.ofNat 0)

/-- The block after `realloc(p, n)`: the first `n` bytes of the old block are
kept, a longer block is filled up. -/
def realloc (p : List Char) (n : Int) : List Char :=
  p.take n.toNat ++ List.replicate (n.toNat - p.length) (Char.ofNat 0)

/-- The block after `memcpy(block + off, src, n)`: both the `n` bytes written
and the `n` bytes read have to lie inside their objects. -/
def memcpy (block : List Char) (off : Int) (src : List Char) (n : Int) :
    Except Fault (List Char) :=
  if 0 ≤ off ∧ 0 ≤ n ∧ off + n ≤ block.length ∧ n ≤ src.length then
    .ok (block.take off.toNat ++ src.take n.toNat ++ block.drop (off.toNat + n.toNat))
  else .error .bounds

/-- Whether `memcmp(block + off, item, strlen(item)) == 0`; the bytes compared
have to lie inside the block. -/
def memcmp_eq (block : List Char) (off : Nat) (item : List Char) : Except Fault Bool :=
  if off + item.length ≤ block.length then
    .ok (decide ((block.drop off).take item.length = item))
  else .error .bounds

/-- Output of `printf("%u", x)` for an `int` argument. -/
def fmt_u (x : Int) : List Char := Nat.toDigits 10 (x % 4294967296).toNat

/-- Output of `printf("%d", x)`. -/
def fmt_d (x : Int) : List Char :=
  if x < 0 then '-' :: Nat.toDigits 10 (-x).toNat else Nat.toDigits 10 x.toNat

/-- The string left in the buffer by `snprintf(buf, size, fmt, x)`, where
`out` is the full formatted output: at most `size - 1` characters are
stored before the NUL. -/
def snprintf (size : Nat) (out : List Char) : List Char := out.take (size - 1)

/-- The `while` loop of lines 43-45, started with `fuel` iterations left.  A
size other than 0 leaves the range of `int` after at most 32 doublings, so the
64 iterations the caller grants run out only when the loop never exits
(`doubling_fuel`, `doubling_zero`). -/
def doubling (data_size datalen : Int) : Nat → Int → Except Fault Int
  | 0, _ => .error .diverge
  | fuel + 1, newdatasize => do
    let sum ← int_op (data_size + datalen)
    if sum > newdatasize then
      let n ← int_op (newdatasize * 2)
      doubling data_size datalen fuel n
    else
      pure newdatasize

/-- Mirror of `http_response_add_data`, lines 33-52. -/
def http_response_add_data (response : http_response_t) (data : List Char) (datalen : Int) :
    Except Fault http_response_t := do
  c_assert (datalen > 0)
  let newdatasize ← doubling response.data_size datalen 64 response.data_size
  let block :=
    if newdatasize ≠ response.data_size then realloc response.data newdatasize
    else response.data
  let block ← memcpy block response.data_length data datalen
  let len ← int_op (response.data_length + datalen)
  pure { response with data := block, data_length := len }

/-- Mirror of `http_response_create`, lines 55-70, allocation succeeding. -/
def http_response_create : http_response_t :=
  { complete := 0, disconnect := 0, data := malloc 1024, data_size := 1024, data_length := 0 }

/-- Mirror of `http_response_init`, lines 72-92. -/
def http_response_init (response : http_response_t) (protocol : List Char) (code : Int)
    (message : List Char) : Except Fault http_response_t := do
  let response := { response with data_length := 0 }
  c_assert (code ≥ 100 && code < 1000)
  let codestr := snprintf 4 (fmt_u code)
  let response ← http_response_add_data response protocol (strlen protocol)
  let response ← http_response_add_data response " ".toList 1
  let response ← http_response_add_data response codestr (strlen codestr)
  let response ← http_response_add_data response " ".toList 1
  let response ← http_response_add_data response message (strlen message)
  http_response_add_data response "\r\n".toList 2

/-- Mirror of `http_response_reverse_request_init`, lines 94-107. -/
def http_response_reverse_request_init (request : http_response_t) (method url protocol : List Char) :
    Except Fault http_response_t := do
  let request := { request with data_length := 0 }
  let request ← http_response_add_data request method (strlen method)
  let request ← http_response_add_data request " ".toList 1
  let request ← http_response_add_data request url (strlen url)
  let request ← http_response_add_data request " ".toList 1
  let request ← http_response_add_data request protocol (strlen protocol)
  http_response_add_data request "\r\n".toList 2

/-- Mirror of `http_response_add_header`, lines 118-129. -/
def http_response_add_header (response : http_response_t) (name value : List Char) :
    Except Fault http_response_t := do
  let response ← http_response_add_data response name (strlen name)
  let response ← http_response_add_data response ": ".toList 2
  let response ← http_response_add_data response value (strlen value)
  http_response_add_data response "\r\n".toList 2

/-- The `for` loop of lines 158-166 as a search: whether some iteration
`i, i+1, ..., i+n-1` finds `item` at `data + i`. -/
def scan (data item : List Char) : Nat → Nat → Except Fault Bool
  | _, 0 => pure false
  | i, n + 1 => do
    if (← memcmp_eq data i item) then pure true
    else scan data item (i + 1) n

/-- The branch of `http_response_finish` for a body, lines 138-151. -/
def finish_with_body (response : http_response_t) (body : List Char) (datalen : Int) :
    Except Fault http_response_t := do
  let hdrname := "Content-Length".toList
  let hdrvalue := snprintf (16 - 1) (fmt_d datalen)
  let response ← http_response_add_data response hdrname (strlen hdrname)
  let response ← http_response_add_data response ": ".toList 2
  let response ← http_response_add_data response hdrvalue (strlen hdrvalue)
  let response ← http_response_add_data response "\r\n\r\n".toList 4
  http_response_add_data response body datalen

/-- The branch of `http_response_finish` for an empty body, lines 153-168. -/
def finish_without_body (response : http_response_t) : Except Fault http_response_t := do
  let item := "Content-Type".toList
  let item_len := strlen item
  let stop ← int_op (response.data_length - item_len)
  let found ← scan response.data item 0 stop.toNat
  let response ←
    (match found with
    | true => do
      let hdrname := "Content-Length: 0".toList
      let response ← http_response_add_data response hdrname (strlen hdrname)
      http_response_add_data response "\r\n".toList 2
    | false => pure response)
  http_response_add_data response "\r\n".toList 2

/-- Mirror of `http_response_finish`, lines 131-171; `data` is `none` for a
NULL pointer. -/
def http_response_finish (response : http_response_t) (data : Option (List Char)) (datalen : Int) :
    Except Fault http_response_t := do
  c_assert (datalen == 0 || (data.isSome && datalen > 0))
  let response ←
    (match data, decide (datalen > 0) with
    | some body, true => finish_with_body response body datalen
    | _, _ => finish_without_body response)
  pure { response with complete := 1 }

/-- Mirror of `http_response_set_disconnect`, lines 173-179. -/
def http_response_set_disconnect (response : http_response_t) (disconnect : Int) :
    http_response_t :=
  { response with disconnect := if disconnect ≠ 0 then 1 else 0 }

/-- Mirror of `http_response_get_disconnect`, lines 181-187. -/
def http_response_get_disconnect (response : http_response_t) : Int :=
  response.disconnect

/-- Mirror of `http_response_get_data`, lines 189-198: the pointer returned
and the value stored in `*datalen`. -/
def http_response_get_data (response : http_response_t) : Except Fault (List Char × Int) := do
  c_assert (response.complete ≠ 0)
  pure (response.data, response.data_length)

/-- The bytes `[0, data_length)` of the buffer. -/
def bytes (response : http_response_t) : List Char :=
  response.data.take response.data_length.toNat

/-- Calls of `http_response_add_header`, one for each pair, in order. -/
def add_headers (response : http_response_t) :
    List (List Char × List Char) → Except Fault http_response_t
  | [] => pure response
  | (name, value) :: rest => do
    let response ← http_response_add_header response name value
    add_headers response rest

/-- The state of a builder whose bytes lie inside the block and whose capacity
field is the one `http_response_create` sets. -/
def Tidy (r : http_response_t) : Prop :=
  r.data_size = 1024 ∧ 0 ≤ r.data_length ∧ r.data_length ≤ r.data.length

/-- Two states that an observer of `data_length` and of the bytes
`[0, data_length)` cannot tell apart, and on which the builder takes the same
decisions: same capacity field, same length, same bytes, both inside their
blocks. -/
def Sim (a b : http_response_t) : Prop :=
  a.data_size = b.data_size ∧ a.data_length = b.data_length ∧ 0 ≤ a.data_length ∧
    a.data_length ≤ a.data.length ∧ b.data_length ≤ b.data.length ∧ bytes a = bytes b

/-- `Sim` lifted to outcomes: the same fault, or states related by `Sim`. -/
def SimRes : Except Fault http_response_t → Except Fault http_response_t → Prop
  | .ok a, .ok b => Sim a b
  | .error e, .error f => e = f
  | _, _ => False

/-- What a caller reads from a builder: the bytes `[0, data_length)` and
`data_length`. -/
def observe (r : http_response_t) : List Char × Int := (bytes r, r.data_length)

/-- One use of a builder: `http_response_init`, the `http_response_add_header`
calls, `http_response_finish`. -/
def run_cycle (s : http_response_t) (protocol : List Char) (code : Int) (message : List Char)
    (headers : List (List Char × List Char)) (body : Option (List Char)) (datalen : Int) :
    Except Fault http_response_t := do
  let r ← http_response_init s protocol code message
  let r ← add_headers r headers
  http_response_finish r body datalen

/-- Appends of the fragments, in order, through `http_response_add_data`. -/
def add_fragments (response : http_response_t) : List (List Char) → Except Fault http_response_t
  | [] => pure response
  | fragment :: rest => do
    let response ← http_response_add_data response fragment (strlen fragment)
    add_fragments response rest

/-- The states of a builder between its initialisation and
`http_response_finish`: reached from a state whose capacity field is the one
`http_response_create` sets by one of the two init functions and then by
calls of `http_response_add_header`, none of them faulting. -/
inductive InHeaders : http_response_t → Prop
  | init (s r : http_response_t) (protocol : List Char) (code : Int) (message : List Char) :
      s.data_size = 1024 → http_response_init s protocol code message = .ok r → InHeaders r
  | reverse_request_init (s r : http_response_t) (method url protocol : List Char) :
      s.data_size = 1024 → http_response_reverse_request_init s method url protocol = .ok r →
      InHeaders r
  | add_header (r r' : http_response_t) (name value : List Char) :
      InHeaders r → http_response_add_header r name value = .ok r' → InHeaders r'

/-- The state of an outcome that is not a fault. -/
def state_of (x : Except Fault http_response_t) : http_response_t :=
  match x with
  | .ok r => r
  | .error _ => http_response_create

/-- The state `http_response_init(r, "HTTP/1.1", 200, "OK")` leaves on a fresh
builder; a concrete instance. -/
def first_line_state : http_response_t :=
  state_of (http_response_init http_response_create "HTTP/1.1".toList 200 "OK".toList)

/-- The state a fresh builder is in after `http_response_init(r, "HTTP/1.1",
200, "OK")` and `http_response_finish(r, NULL, 0)`; a concrete instance. -/
def used_state : http_response_t :=
  state_of (http_response_init http_response_create "HTTP/1.1".toList 200 "OK".toList >>=
    fun r => http_response_finish r none 0)

/-- The size the loop of `http_response_add_data` reaches from 1024 for an append
of at most 3072 bytes: one doubling up to 1024 bytes, two beyond. -/
def grown (datalen : Int) : Int := if datalen ≤ 1024 then 2048 else 4096

/-- A string argument as the claims on well-formed lines take it: not empty,
and free of CR and LF. -/
def Clean (s : List Char) : Prop := s ≠ [] ∧ '\r' ∉ s ∧ '\n' ∉ s

/-- The text of lines, each closed by `"\r\n"`. -/
def crlf_lines : List (List Char) → List Char
  | [] => []
  | line :: rest => line ++ "\r\n".toList ++ crlf_lines rest

/-- The states reached by an init and calls of `http_response_add_header`, none
of them faulting, on arguments that are not empty and hold no CR or LF. -/
inductive CleanHeaders : http_response_t → Prop
  | init (s r : http_response_t) (protocol : List Char) (code : Int) (message : List Char) :
      Clean protocol → Clean message → http_response_init s protocol code message = .ok r →
      CleanHeaders r
  | reverse_request_init (s r : http_response_t) (method url protocol : List Char) :
      Clean method → Clean url → Clean protocol →
      http_response_reverse_request_init s method url protocol = .ok r → CleanHeaders r
  | add_header (r r' : http_response_t) (name value : List Char) :
      CleanHeaders r → Clean name → Clean value →
      http_response_add_header r name value = .ok r' → CleanHeaders r'

/-- A call of one of the functions that change a builder. -/
inductive Call where
  | init (protocol : List Char) (code : Int) (message : List Char)
  | reverse_request_init (method url protocol : List Char)
  | add_header (name value : List Char)
  | finish (data : Option (List Char)) (datalen : Int)
  | set_disconnect (disconnect : Int)

/-- The outcome of one call. -/
def do_call (r : http_response_t) : Call → Except Fault http_response_t
  | .init protocol code message => http_response_init r protocol code message
  | .reverse_request_init method url protocol =>
    http_response_reverse_request_init r method url protocol
  | .add_header name value => http_response_add_header r name value
  | .finish data datalen => http_response_finish r data datalen
  | .set_disconnect disconnect => pure (http_response_set_disconnect r disconnect)

/-- The outcome of a sequence of calls, in order. -/
def do_calls (r : http_response_t) : List Call → Except Fault http_response_t
  | [] => pure r
  | c :: rest => do
    let r ← do_call r c
    do_calls r rest

/-! Lemmas -/

theorem ok_bind {α β : Type} (a : α) (f : α → Except Fault β) : (Except.ok a >>= f) = f a := rfl

theorem error_bind {α β : Type} (e : Fault) (f : α → Except Fault β) :
    ((Except.error e : Except Fault α) >>= f) = .error e := rfl

theorem int_op_ok (x : Int) (h1 : -2147483648 ≤ x) (h2 : x ≤ 2147483647) : int_op x = .ok x := by
  simp [int_op, INT_MIN, INT_MAX, h1, h2]

theorem int_op_inv {x y : Int} (h : int_op x = .ok y) :
    y = x ∧ -2147483648 ≤ x ∧ x ≤ 2147483647 := by
  unfold int_op at h
  split at h
  · rename_i hx
    simp only [INT_MIN, INT_MAX] at hx
    cases h
    exact ⟨rfl, hx.1, hx.2⟩
  · cases h

theorem doubling_exit (S d n : Int) (fuel : Nat) (h1 : -2147483648 ≤ S + d)
    (h2 : S + d ≤ 2147483647) (h : S + d ≤ n) : doubling S d (fuel + 1) n = .ok n := by
  have c : ¬ (n < S + d) := by omega
  simp only [doubling, int_op_ok _ h1 h2, ok_bind, gt_iff_lt, c, if_false]
  rfl

theorem doubling_step (S d n : Int) (fuel : Nat) (h1 : -2147483648 ≤ S + d)
    (h2 : S + d ≤ 2147483647) (h : n < S + d) (h3 : -2147483648 ≤ n * 2) (h4 : n * 2 ≤ 2147483647) :
    doubling S d (fuel + 1) n = doubling S d fuel (n * 2) := by
  simp only [doubling, int_op_ok _ h1 h2, ok_bind, gt_iff_lt, h, if_true, int_op_ok _ h3 h4]

/-- The loop exits only with a size that is large enough for `data_size + datalen`
bytes and lies inside `int`. -/
theorem doubling_ge (S d : Int) : ∀ (fuel : Nat) (n m : Int),
    doubling S d fuel n = .ok m → S + d ≤ m ∧ (n ≤ 2147483647 → m ≤ 2147483647) := by
  intro fuel
  induction fuel with
  | zero => intro n m h; simp [doubling] at h
  | succ fuel ih =>
    intro n m h
    simp only [doubling] at h
    cases h1 : int_op (S + d) with
    | error e => rw [h1, error_bind] at h; cases h
    | ok t =>
      rw [h1, ok_bind] at h
      obtain ⟨rfl, _, _⟩ := int_op_inv h1
      split at h
      · cases h2 : int_op (n * 2) with
        | error e => rw [h2, error_bind] at h; cases h
        | ok k =>
          rw [h2, ok_bind] at h
          obtain ⟨rfl, _, hk⟩ := int_op_inv h2
          exact ⟨(ih _ _ h).1, fun _ => (ih _ _ h).2 hk⟩
      · rename_i hc
        cases h
        exact ⟨by omega, fun hn => hn⟩

theorem doubling_2048 (d : Int) (h0 : 0 < d) (h1 : d ≤ 1024) :
    doubling 1024 d 64 1024 = .ok 2048 := by
  rw [doubling_step 1024 d 1024 63 (by omega) (by omega) (by omega) (by omega) (by omega)]
  exact doubling_exit 1024 d (1024 * 2) 62 (by omega) (by omega) (by omega)

theorem doubling_4096 (d : Int) (h0 : 1024 < d) (h1 : d ≤ 3072) :
    doubling 1024 d 64 1024 = .ok 4096 := by
  rw [doubling_step 1024 d 1024 63 (by omega) (by omega) (by omega) (by omega) (by omega)]
  rw [doubling_step 1024 d (1024 * 2) 62 (by omega) (by omega) (by omega) (by omega) (by omega)]
  exact doubling_exit 1024 d (1024 * 2 * 2) 61 (by omega) (by omega) (by omega)

theorem length_realloc (p : List Char) (m : Int) : (realloc p m).length = m.toNat := by
  simp only [realloc, List.length_append, List.length_take, List.length_replicate]
  omega

theorem take_realloc (p : List Char) (m : Int) (k : Nat) (h1 : k ≤ p.length) (h2 : k ≤ m.toNat) :
    (realloc p m).take k = p.take k := by
  unfold realloc
  rw [List.take_append_of_le_length (by simp only [List.length_take]; omega), List.take_take]
  congr 1
  omega

/-- The shape of `http_response_add_data` once the assertion and the loop are
through: the block is always reallocated. -/
theorem add_data_unfold (r : http_response_t) (data : List Char) (d m : Int) (h0 : 0 < d)
    (hm : doubling r.data_size d 64 r.data_size = .ok m) :
    http_response_add_data r data d =
      (memcpy (realloc r.data m) r.data_length data d >>= fun block =>
        int_op (r.data_length + d) >>= fun len =>
          pure { r with data := block, data_length := len }) := by
  have hne : m ≠ r.data_size := by
    have := (doubling_ge _ _ _ _ _ hm).1
    omega
  simp only [http_response_add_data, c_assert, gt_iff_lt, h0, decide_True, if_true, hm, ok_bind,
    ne_eq, hne, not_false_eq_true]

theorem memcpy_ok (block src : List Char) (off n : Int) (h0 : 0 ≤ off) (hn : 0 ≤ n)
    (h1 : off + n ≤ block.length) (h2 : n ≤ src.length) :
    memcpy block off src n =
      .ok (block.take off.toNat ++ src.take n.toNat ++ block.drop (off.toNat + n.toNat)) := by
  simp [memcpy, h0, hn, h1, h2]

theorem memcpy_inv {block src out : List Char} {off n : Int}
    (h : memcpy block off src n = .ok out) :
    0 ≤ off ∧ 0 ≤ n ∧ off + n ≤ block.length ∧ n ≤ src.length ∧
      out = block.take off.toNat ++ src.take n.toNat ++ block.drop (off.toNat + n.toNat) := by
  unfold memcpy at h
  split at h
  · rename_i hc
    cases h
    exact ⟨hc.1, hc.2.1, hc.2.2.1, hc.2.2.2, rfl⟩
  · cases h

/-- Length and first bytes of a block after an in-bounds `memcpy`. -/
theorem memcpy_layout (block src : List Char) (off n : Nat) (h1 : off + n ≤ block.length)
    (h2 : n ≤ src.length) :
    (block.take off ++ src.take n ++ block.drop (off + n)).length = block.length ∧
    (block.take off ++ src.take n ++ block.drop (off + n)).take (off + n) =
      block.take off ++ src.take n := by
  constructor
  · simp only [List.length_append, List.length_take, List.length_drop]
    omega
  · rw [List.take_append_of_le_length (by simp only [List.length_append, List.length_take]; omega)]
    rw [List.take_of_length_le (by simp only [List.length_append, List.length_take]; omega)]

/-- Everything a successful `http_response_add_data` tells about the two states. -/
theorem add_data_inv {r r' : http_response_t} {data : List Char} {d : Int}
    (h : http_response_add_data r data d = .ok r') :
    0 < d ∧ d ≤ data.length ∧ 0 ≤ r.data_length ∧
    r'.data_size = r.data_size ∧ r'.complete = r.complete ∧ r'.disconnect = r.disconnect ∧
    r'.data_length = r.data_length + d ∧ r'.data_length ≤ r'.data.length ∧
    r.data_size + d ≤ r'.data.length ∧
    (r.data_length ≤ r.data.length → bytes r' = bytes r ++ data.take d.toNat) := by
  have h0 : 0 < d := by
    by_contra hc
    simp [http_response_add_data, c_assert, hc, error_bind] at h
  cases hm : doubling r.data_size d 64 r.data_size with
  | error e =>
    simp [http_response_add_data, c_assert, h0, hm, ok_bind, error_bind] at h
  | ok m =>
    rw [add_data_unfold r data d m h0 hm] at h
    have hge := doubling_ge _ _ _ _ _ hm
    cases hc : memcpy (realloc r.data m) r.data_length data d with
    | error e => rw [hc, error_bind] at h; cases h
    | ok block =>
      rw [hc, ok_bind] at h
      obtain ⟨c0, c1, c2, c3, rfl⟩ := memcpy_inv hc
      cases hl : int_op (r.data_length + d) with
      | error e => rw [hl, error_bind] at h; cases h
      | ok len =>
        rw [hl, ok_bind] at h
        obtain ⟨rfl, _, _⟩ := int_op_inv hl
        cases h
        rw [length_realloc] at c2
        have lay := memcpy_layout (realloc r.data m) data r.data_length.toNat d.toNat
          (by rw [length_realloc]; omega) (by omega)
        refine ⟨h0, c3, c0, rfl, rfl, rfl, rfl, ?_, ?_, ?_⟩
        · show r.data_length + d ≤ _
          rw [lay.1, length_realloc]; omega
        · show r.data_size + d ≤ _
          rw [lay.1, length_realloc]; omega
        · intro hb
          show List.take (r.data_length + d).toNat _ = _
          have e : (r.data_length + d).toNat = r.data_length.toNat + d.toNat := by omega
          rw [e, lay.2, take_realloc _ _ _ (by omega) (by omega)]
          rfl

/-- An append to a builder of capacity field 1024 that ends inside the first
2048 bytes succeeds and appends exactly the bytes given. -/
theorem add_data_fits (r : http_response_t) (data : List Char) (hs : r.data_size = 1024)
    (h0 : 0 ≤ r.data_length) (hb : r.data_length ≤ r.data.length) (hd : data ≠ [])
    (hfit : r.data_length + data.length ≤ 2048) :
    ∃ r', http_response_add_data r data (strlen data) = .ok r' ∧
      bytes r' = bytes r ++ data ∧ r'.data_length = r.data_length + data.length ∧
      r'.data_size = 1024 ∧ r'.data_length ≤ r'.data.length ∧
      r'.complete = r.complete ∧ r'.disconnect = r.disconnect := by
  have hpos : 0 < data.length := List.length_pos.mpr hd
  have hex : ∃ m : Int, doubling r.data_size (strlen data) 64 r.data_size = .ok m ∧ 2048 ≤ m := by
    rw [hs]
    by_cases hc : (data.length : Int) ≤ 1024
    · exact ⟨2048, doubling_2048 _ (by unfold strlen; omega) hc, by omega⟩
    · exact ⟨4096, doubling_4096 _ (by unfold strlen; omega) (by unfold strlen; omega), by omega⟩
  obtain ⟨m, hm, hm2⟩ := hex
  have hok : ∃ r', http_response_add_data r data (strlen data) = .ok r' := by
    rw [add_data_unfold r data _ m (by unfold strlen; omega) hm,
      memcpy_ok _ _ _ _ h0 (by unfold strlen; omega)
        (by rw [length_realloc]; unfold strlen; omega) (by unfold strlen; omega),
      ok_bind, int_op_ok _ (by unfold strlen; omega) (by unfold strlen; omega), ok_bind]
    exact ⟨_, rfl⟩
  obtain ⟨r', hr'⟩ := hok
  obtain ⟨_, _, _, i1, i2, i3, i4, i5, _, i6⟩ := add_data_inv hr'
  refine ⟨r', hr', ?_, i4, by rw [i1, hs], i5, i2, i3⟩
  rw [i6 hb]
  congr 1
  exact List.take_of_length_le (by unfold strlen; omega)

/-- What the search loop computes when every comparison stays inside the
block: whether the item stands at one of the offsets `i, ..., i + n - 1`. -/
theorem scan_spec (data item : List Char) : ∀ (n i : Nat),
    (n = 0 ∨ i + n + item.length ≤ data.length + 1) →
    ∃ b, scan data item i n = .ok b ∧
      (b = true ↔ ∃ j, i ≤ j ∧ j < i + n ∧ (data.drop j).take item.length = item) := by
  intro n
  induction n with
  | zero =>
    intro i _
    refine ⟨false, rfl, ?_⟩
    simp only [Bool.false_eq_true, false_iff, not_exists]
    intro j hj
    omega
  | succ n ih =>
    intro i hb
    have hin : i + item.length ≤ data.length := by omega
    simp only [scan, memcmp_eq, hin, if_true, ok_bind]
    by_cases hw : (data.drop i).take item.length = item
    · refine ⟨true, ?_, ?_⟩
      · simp only [hw, decide_True, if_true]
        rfl
      · simp only [true_iff]
        exact ⟨i, le_refl _, by omega, hw⟩
    · simp only [hw, decide_False, Bool.false_eq_true, if_false]
      obtain ⟨b, hb1, hb2⟩ := ih (i + 1) (by omega)
      refine ⟨b, hb1, hb2.trans ?_⟩
      constructor
      · rintro ⟨j, h1, h2, h3⟩
        exact ⟨j, by omega, by omega, h3⟩
      · rintro ⟨j, h1, h2, h3⟩
        refine ⟨j, ?_, by omega, h3⟩
        by_contra hc
        have : j = i := by omega
        subst this
        exact hw h3

theorem window_take (data : List Char) (L j k : Nat) (h : j + k ≤ L) :
    ((data.take L).drop j).take k = (data.drop j).take k := by
  rw [List.drop_take, List.take_take]
  congr 1
  omega

/-- The search of `http_response_finish` on a state whose bytes lie inside the
block: it looks at the start offsets `j` with `j + strlen(item) < data_length`
and nowhere else. -/
theorem scan_bytes (r : http_response_t) (item : List Char) (stop : Int)
    (h0 : 0 ≤ r.data_length) (hb : r.data_length ≤ r.data.length)
    (hs : stop = r.data_length - strlen item) :
    ∃ b, scan r.data item 0 stop.toNat = .ok b ∧
      (b = true ↔ ∃ j, j + item.length < (bytes r).length ∧
        ((bytes r).drop j).take item.length = item) := by
  have hl : (bytes r).length = r.data_length.toNat := by
    simp only [bytes, List.length_take]; omega
  have hn : stop.toNat = r.data_length.toNat - item.length := by
    rw [hs]; unfold strlen; omega
  obtain ⟨b, hb1, hb2⟩ := scan_spec r.data item stop.toNat 0 (by rw [hn]; omega)
  refine ⟨b, hb1, hb2.trans ?_⟩
  rw [hn, hl]
  constructor
  · rintro ⟨j, _, h2, h3⟩
    have hj : j + item.length < r.data_length.toNat := by omega
    refine ⟨j, hj, ?_⟩
    unfold bytes
    rw [window_take _ _ _ _ (by omega)]
    exact h3
  · rintro ⟨j, h2, h3⟩
    have hj : j < 0 + (r.data_length.toNat - item.length) := by omega
    refine ⟨j, Nat.zero_le _, hj, ?_⟩
    unfold bytes at h3
    rw [window_take _ _ _ _ (by omega)] at h3
    exact h3

/-- A window that holds the item is an occurrence of the item. -/
theorem window_occurs (B item : List Char) (j : Nat) (h : (B.drop j).take item.length = item) :
    item <:+: B := by
  refine ⟨B.take j, (B.drop j).drop item.length, ?_⟩
  rw [List.append_assoc]
  nth_rewrite 1 [← h]
  rw [List.take_append_drop, List.take_append_drop]

theorem digits3_table : ∀ k : Fin 900,
    Nat.toDigits 10 (k.val + 100) =
      [Nat.digitChar ((k.val + 100) / 100), Nat.digitChar ((k.val + 100) / 10 % 10),
        Nat.digitChar ((k.val + 100) % 10)] ∧
    Nat.digitChar ((k.val + 100) / 100) ≠ '0' ∧ 'C' ∉ Nat.toDigits 10 (k.val + 100) := by
  decide!

/-- The status code as `http_response_init` prints it: the four-byte `codestr`
holds all three digits. -/
theorem codestr_digits (c : Int) (h1 : 100 ≤ c) (h2 : c < 1000) :
    snprintf 4 (fmt_u c) = Nat.toDigits 10 c.toNat ∧
    Nat.toDigits 10 c.toNat =
      [Nat.digitChar (c.toNat / 100), Nat.digitChar (c.toNat / 10 % 10),
        Nat.digitChar (c.toNat % 10)] ∧
    Nat.digitChar (c.toNat / 100) ≠ '0' ∧ 'C' ∉ Nat.toDigits 10 c.toNat := by
  have hk : c.toNat - 100 < 900 := by omega
  have ht := digits3_table ⟨c.toNat - 100, hk⟩
  have e : c.toNat - 100 + 100 = c.toNat := by omega
  simp only [e] at ht
  have e2 : (c % 4294967296).toNat = c.toNat := by omega
  refine ⟨?_, ht⟩
  unfold snprintf fmt_u
  rw [e2, ht.1]
  rfl

theorem add_data_tidy {r r' : http_response_t} {data : List Char} {d : Int}
    (hs : r.data_size = 1024) (h : http_response_add_data r data d = .ok r') : Tidy r' := by
  obtain ⟨h0, _, h1, i1, _, _, i4, i5, _, _⟩ := add_data_inv h
  exact ⟨by rw [i1, hs], by omega, i5⟩

/-- `add_data_fits` for a string constant or argument, on a tidy state. -/
theorem add_str_fits (r : http_response_t) (s : List Char) (ht : Tidy r) (hd : s ≠ [])
    (hfit : r.data_length + s.length ≤ 2048) :
    ∃ r', http_response_add_data r s (strlen s) = .ok r' ∧
      bytes r' = bytes r ++ s ∧ r'.data_length = r.data_length + s.length ∧ Tidy r' ∧
      r'.complete = r.complete ∧ r'.disconnect = r.disconnect := by
  obtain ⟨r', h1, h2, h3, h4, h5, h6, h7⟩ := add_data_fits r s ht.1 ht.2.1 ht.2.2 hd hfit
  exact ⟨r', h1, h2, h3, ⟨h4, by have := ht.2.1; omega, h5⟩, h6, h7⟩

/-- A first line that ends inside the first 2048 bytes is written as it stands:
protocol, status code, message, each followed by its separator. -/
theorem init_fits (r : http_response_t) (protocol message : List Char) (c : Int)
    (hs : r.data_size = 1024) (h1 : 100 ≤ c) (h2 : c < 1000) (hp : protocol ≠ [])
    (hm : message ≠ []) (hfit : protocol.length + message.length + 7 ≤ 2048) :
    ∃ r', http_response_init r protocol c message = .ok r' ∧
      bytes r' = protocol ++ " ".toList ++ Nat.toDigits 10 c.toNat ++ " ".toList ++ message ++
        "\r\n".toList ∧
      r'.data_length = protocol.length + message.length + 7 ∧ Tidy r' ∧
      r'.complete = r.complete ∧ r'.disconnect = r.disconnect := by
  obtain ⟨hc1, hc2, _, _⟩ := codestr_digits c h1 h2
  have hlen : (Nat.toDigits 10 c.toNat).length = 3 := by rw [hc2]; rfl
  have t0 : Tidy { r with data_length := 0 } := ⟨hs, le_refl _, Int.ofNat_nonneg _⟩
  have ksp : (" ".toList.length : Int) = 1 := rfl
  have knl : ("\r\n".toList.length : Int) = 2 := rfl
  have kd : ((Nat.toDigits 10 c.toNat).length : Int) = 3 := by rw [hlen]; rfl
  obtain ⟨r1, e1, b1, l1, t1, c1, d1⟩ := add_str_fits _ protocol t0 hp (by simp only; omega)
  simp only [zero_add] at l1
  obtain ⟨r2, e2, b2, l2, t2, c2, d2⟩ := add_str_fits r1 " ".toList t1 (by decide) (by omega)
  obtain ⟨r3, e3, b3, l3, t3, c3, d3⟩ := add_str_fits r2 (Nat.toDigits 10 c.toNat) t2
    (by rw [hc2]; exact List.cons_ne_nil _ _) (by omega)
  obtain ⟨r4, e4, b4, l4, t4, c4, d4⟩ := add_str_fits r3 " ".toList t3 (by decide) (by omega)
  obtain ⟨r5, e5, b5, l5, t5, c5, d5⟩ := add_str_fits r4 message t4 hm (by omega)
  obtain ⟨r6, e6, b6, l6, t6, c6, d6⟩ := add_str_fits r5 "\r\n".toList t5 (by decide) (by omega)
  refine ⟨r6, ?_, ?_, ?_, t6, ?_, ?_⟩
  · have ha : (decide (c ≥ 100) && decide (c < 1000)) = true := by simp [h1, h2]
    have e2' : http_response_add_data r1 " ".toList 1 = .ok r2 := e2
    have e4' : http_response_add_data r3 " ".toList 1 = .ok r4 := e4
    have e6' : http_response_add_data r5 "\r\n".toList 2 = .ok r6 := e6
    simp only [http_response_init, c_assert, ha, if_true, ok_bind, hc1, e1, e2', e3, e4', e5, e6']
  · rw [b6, b5, b4, b3, b2, b1]
    rfl
  · omega
  · rw [c6, c5, c4, c3, c2, c1]
  · rw [d6, d5, d4, d3, d2, d1]

/-- With `datalen = 0` the function `http_response_finish` takes its second
branch, whatever `data` is. -/
theorem finish_empty_unfold (r : http_response_t) (data : Option (List Char)) :
    http_response_finish r data 0 =
      (finish_without_body r >>= fun r3 => pure { r3 with complete := 1 }) := by
  cases data <;> rfl

theorem finish_without_body_plain (r r1 : http_response_t) (stop : Int)
    (h1 : int_op (r.data_length - strlen "Content-Type".toList) = .ok stop)
    (h2 : scan r.data "Content-Type".toList 0 stop.toNat = .ok false)
    (h3 : http_response_add_data r "\r\n".toList 2 = .ok r1) :
    finish_without_body r = .ok r1 := by
  simp only [finish_without_body, h1, ok_bind, h2]
  exact h3

theorem finish_without_body_inject (r r1 r2 r3 : http_response_t) (stop : Int)
    (h1 : int_op (r.data_length - strlen "Content-Type".toList) = .ok stop)
    (h2 : scan r.data "Content-Type".toList 0 stop.toNat = .ok true)
    (h3 : http_response_add_data r "Content-Length: 0".toList
      (strlen "Content-Length: 0".toList) = .ok r1)
    (h4 : http_response_add_data r1 "\r\n".toList 2 = .ok r2)
    (h5 : http_response_add_data r2 "\r\n".toList 2 = .ok r3) :
    finish_without_body r = .ok r3 := by
  simp only [finish_without_body, h1, ok_bind, h2, h3, h4]
  exact h5

/-- With an empty body and no `Content-Type` at any offset the search visits,
`http_response_finish` appends the blank line and nothing else. -/
theorem finish_empty_plain (r : http_response_t) (data : Option (List Char)) (ht : Tidy r)
    (hno : ¬ ∃ j, j + "Content-Type".toList.length < (bytes r).length ∧
      ((bytes r).drop j).take "Content-Type".toList.length = "Content-Type".toList)
    (hfit : r.data_length + 2 ≤ 2048) :
    ∃ r', http_response_finish r data 0 = .ok r' ∧ bytes r' = bytes r ++ "\r\n".toList ∧
      r'.data_length = r.data_length + 2 ∧ Tidy r' ∧ r'.complete = 1 ∧
      r'.disconnect = r.disconnect := by
  obtain ⟨b, hb1, hb2⟩ := scan_bytes r "Content-Type".toList _ ht.2.1 ht.2.2 rfl
  have hb : b = false := by
    cases b
    · rfl
    · exact absurd (hb2.mp rfl) hno
  subst hb
  have knl : ("\r\n".toList.length : Int) = 2 := rfl
  obtain ⟨r1, e1, b1, l1, t1, c1, d1⟩ := add_str_fits r "\r\n".toList ht (by decide) (by omega)
  have e1' : http_response_add_data r "\r\n".toList 2 = .ok r1 := e1
  have hst : int_op (r.data_length - strlen "Content-Type".toList) =
      .ok (r.data_length - strlen "Content-Type".toList) := by
    have k : strlen "Content-Type".toList = 12 := rfl
    have := ht.2.1
    exact int_op_ok _ (by omega) (by omega)
  refine ⟨{ r1 with complete := 1 }, ?_, b1, by rw [← knl]; exact l1, t1, rfl, d1⟩
  rw [finish_empty_unfold, finish_without_body_plain r r1 _ hst hb1 e1', ok_bind]
  rfl

/-- With an empty body and a `Content-Type` at an offset the search visits,
`http_response_finish` appends the `Content-Length: 0` line and the blank line. -/
theorem finish_empty_inject (r : http_response_t) (data : Option (List Char)) (ht : Tidy r)
    (hyes : ∃ j, j + "Content-Type".toList.length < (bytes r).length ∧
      ((bytes r).drop j).take "Content-Type".toList.length = "Content-Type".toList)
    (hfit : r.data_length + 21 ≤ 2048) :
    ∃ r', http_response_finish r data 0 = .ok r' ∧
      bytes r' = bytes r ++ "Content-Length: 0\r\n".toList ++ "\r\n".toList ∧
      r'.data_length = r.data_length + 21 ∧ Tidy r' ∧ r'.complete = 1 ∧
      r'.disconnect = r.disconnect := by
  obtain ⟨b, hb1, hb2⟩ := scan_bytes r "Content-Type".toList _ ht.2.1 ht.2.2 rfl
  have hb : b = true := hb2.mpr hyes
  subst hb
  have knl : ("\r\n".toList.length : Int) = 2 := rfl
  have kcl : ("Content-Length: 0".toList.length : Int) = 17 := rfl
  obtain ⟨r1, e1, b1, l1, t1, c1, d1⟩ :=
    add_str_fits r "Content-Length: 0".toList ht (by decide) (by omega)
  obtain ⟨r2, e2, b2, l2, t2, c2, d2⟩ := add_str_fits r1 "\r\n".toList t1 (by decide) (by omega)
  obtain ⟨r3, e3, b3, l3, t3, c3, d3⟩ := add_str_fits r2 "\r\n".toList t2 (by decide) (by omega)
  have e2' : http_response_add_data r1 "\r\n".toList 2 = .ok r2 := e2
  have e3' : http_response_add_data r2 "\r\n".toList 2 = .ok r3 := e3
  have hst : int_op (r.data_length - strlen "Content-Type".toList) =
      .ok (r.data_length - strlen "Content-Type".toList) := by
    have k : strlen "Content-Type".toList = 12 := rfl
    have := ht.2.1
    exact int_op_ok _ (by omega) (by omega)
  refine ⟨{ r3 with complete := 1 }, ?_, ?_, by show r3.data_length = _; omega, t3, rfl, ?_⟩
  · rw [finish_empty_unfold, finish_without_body_inject r r1 r2 r3 _ hst hb1 e1 e2' e3', ok_bind]
    rfl
  · show bytes r3 = _
    rw [b3, b2, b1]
    simp only [List.append_assoc]
    rfl
  · show r3.disconnect = _
    rw [d3, d2, d1]

theorem simres_bind {x y : Except Fault http_response_t}
    {f g : http_response_t → Except Fault http_response_t} (h : SimRes x y)
    (hf : ∀ a b, Sim a b → SimRes (f a) (g b)) : SimRes (x >>= f) (y >>= g) := by
  cases x with
  | error e =>
    cases y with
    | error e' => exact h
    | ok b => exact h.elim
  | ok a =>
    cases y with
    | error e' => exact h.elim
    | ok b => exact hf a b h

theorem simres_assert (c : Bool) {f g : Unit → Except Fault http_response_t}
    (hf : c = true → SimRes (f ()) (g ())) : SimRes (c_assert c >>= f) (c_assert c >>= g) := by
  cases c with
  | false => exact rfl
  | true => exact hf rfl

theorem simres_observe {x y : Except Fault http_response_t} (h : SimRes x y) :
    x.map observe = y.map observe := by
  cases x with
  | error e =>
    cases y with
    | error e' => cases h; rfl
    | ok b => exact h.elim
  | ok a =>
    cases y with
    | error e' => exact h.elim
    | ok b =>
      obtain ⟨_, h2, _, _, _, h6⟩ := h
      show Except.ok (bytes a, a.data_length) = Except.ok (bytes b, b.data_length)
      rw [h2, h6]

theorem memcpy_err (block src : List Char) (off n : Int)
    (h : ¬ (0 ≤ off ∧ 0 ≤ n ∧ off + n ≤ block.length ∧ n ≤ src.length)) :
    memcpy block off src n = .error .bounds := by
  simp only [memcpy, h, if_false]

/-- An append takes the same course on two states related by `Sim`. -/
theorem add_data_sim {a b : http_response_t} (h : Sim a b) (data : List Char) (d : Int) :
    SimRes (http_response_add_data a data d) (http_response_add_data b data d) := by
  obtain ⟨hs, hl, h0, ha, hb, hbytes⟩ := h
  by_cases hd : 0 < d
  · cases hm : doubling b.data_size d 64 b.data_size with
    | error e =>
      have hm' : doubling a.data_size d 64 a.data_size = .error e := by rw [hs]; exact hm
      have e1 : http_response_add_data a data d = .error e := by
        simp only [http_response_add_data, c_assert, gt_iff_lt, hd, decide_True, if_true, ok_bind,
          hm', error_bind]
      have e2 : http_response_add_data b data d = .error e := by
        simp only [http_response_add_data, c_assert, gt_iff_lt, hd, decide_True, if_true, ok_bind,
          hm, error_bind]
      rw [e1, e2]
      exact rfl
    | ok m =>
      have hm' : doubling a.data_size d 64 a.data_size = .ok m := by rw [hs]; exact hm
      rw [add_data_unfold a data d m hd hm', add_data_unfold b data d m hd hm, hl]
      by_cases hc : 0 ≤ b.data_length ∧ 0 ≤ d ∧ b.data_length + d ≤ m.toNat ∧ d ≤ data.length
      · rw [memcpy_ok _ _ _ _ hc.1 hc.2.1 (by rw [length_realloc]; exact hc.2.2.1) hc.2.2.2,
          memcpy_ok _ _ _ _ hc.1 hc.2.1 (by rw [length_realloc]; exact hc.2.2.1) hc.2.2.2,
          ok_bind, ok_bind]
        cases hi : int_op (b.data_length + d) with
        | error e => exact rfl
        | ok len =>
          obtain ⟨rfl, _, _⟩ := int_op_inv hi
          rw [ok_bind, ok_bind]
          have la := memcpy_layout (realloc a.data m) data b.data_length.toNat d.toNat
            (by rw [length_realloc]; omega) (by omega)
          have lb := memcpy_layout (realloc b.data m) data b.data_length.toNat d.toNat
            (by rw [length_realloc]; omega) (by omega)
          have e : (b.data_length + d).toNat = b.data_length.toNat + d.toNat := by omega
          have ta := take_realloc a.data m b.data_length.toNat (by omega) (by omega)
          have tb := take_realloc b.data m b.data_length.toNat (by omega) (by omega)
          refine ⟨hs, rfl, by show 0 ≤ b.data_length + d; omega, ?_, ?_, ?_⟩
          · show b.data_length + d ≤ _
            rw [la.1, length_realloc]; omega
          · show b.data_length + d ≤ _
            rw [lb.1, length_realloc]; omega
          · show List.take (b.data_length + d).toNat _ = List.take (b.data_length + d).toNat _
            rw [e, la.2, lb.2, ta, tb]
            unfold bytes at hbytes
            rw [hl] at hbytes
            rw [hbytes]
      · rw [memcpy_err _ _ _ _ (by rw [length_realloc]; exact hc),
          memcpy_err _ _ _ _ (by rw [length_realloc]; exact hc)]
        exact rfl
  · have e1 : http_response_add_data a data d = .error .assertion := by
      simp only [http_response_add_data, c_assert, gt_iff_lt, hd, decide_False,
        Bool.false_eq_true, if_false, error_bind]
    have e2 : http_response_add_data b data d = .error .assertion := by
      simp only [http_response_add_data, c_assert, gt_iff_lt, hd, decide_False,
        Bool.false_eq_true, if_false, error_bind]
    rw [e1, e2]
    exact rfl

theorem add_header_sim {a b : http_response_t} (h : Sim a b) (name value : List Char) :
    SimRes (http_response_add_header a name value) (http_response_add_header b name value) := by
  unfold http_response_add_header
  refine simres_bind (add_data_sim h _ _) fun a1 b1 h1 => ?_
  refine simres_bind (add_data_sim h1 _ _) fun a2 b2 h2 => ?_
  refine simres_bind (add_data_sim h2 _ _) fun a3 b3 h3 => ?_
  exact add_data_sim h3 _ _

theorem add_headers_sim (headers : List (List Char × List Char)) :
    ∀ {a b : http_response_t}, Sim a b → SimRes (add_headers a headers) (add_headers b headers) := by
  induction headers with
  | nil => intro a b h; exact h
  | cons hd tl ih =>
    intro a b h
    obtain ⟨name, value⟩ := hd
    unfold add_headers
    exact simres_bind (add_header_sim h name value) fun a1 b1 h1 => ih h1

/-- After the reset of `data_length` nothing of the old state is left for the
first line to depend on, except the capacity field. -/
theorem init_sim (s t : http_response_t) (hs : s.data_size = t.data_size)
    (protocol : List Char) (code : Int) (message : List Char) :
    SimRes (http_response_init s protocol code message)
      (http_response_init t protocol code message) := by
  have h0 : Sim { s with data_length := 0 } { t with data_length := 0 } :=
    ⟨hs, rfl, le_refl _, Int.ofNat_nonneg _, Int.ofNat_nonneg _, rfl⟩
  unfold http_response_init
  refine simres_assert _ fun _ => ?_
  refine simres_bind (add_data_sim h0 _ _) fun a1 b1 h1 => ?_
  refine simres_bind (add_data_sim h1 _ _) fun a2 b2 h2 => ?_
  refine simres_bind (add_data_sim h2 _ _) fun a3 b3 h3 => ?_
  refine simres_bind (add_data_sim h3 _ _) fun a4 b4 h4 => ?_
  refine simres_bind (add_data_sim h4 _ _) fun a5 b5 h5 => ?_
  exact add_data_sim h5 _ _

theorem reverse_request_init_sim (s t : http_response_t) (hs : s.data_size = t.data_size)
    (method url protocol : List Char) :
    SimRes (http_response_reverse_request_init s method url protocol)
      (http_response_reverse_request_init t method url protocol) := by
  have h0 : Sim { s with data_length := 0 } { t with data_length := 0 } :=
    ⟨hs, rfl, le_refl _, Int.ofNat_nonneg _, Int.ofNat_nonneg _, rfl⟩
  unfold http_response_reverse_request_init
  refine simres_bind (add_data_sim h0 _ _) fun a1 b1 h1 => ?_
  refine simres_bind (add_data_sim h1 _ _) fun a2 b2 h2 => ?_
  refine simres_bind (add_data_sim h2 _ _) fun a3 b3 h3 => ?_
  refine simres_bind (add_data_sim h3 _ _) fun a4 b4 h4 => ?_
  refine simres_bind (add_data_sim h4 _ _) fun a5 b5 h5 => ?_
  exact add_data_sim h5 _ _

theorem finish_with_body_sim {a b : http_response_t} (h : Sim a b) (body : List Char)
    (datalen : Int) :
    SimRes (finish_with_body a body datalen) (finish_with_body b body datalen) := by
  unfold finish_with_body
  refine simres_bind (add_data_sim h _ _) fun a1 b1 h1 => ?_
  refine simres_bind (add_data_sim h1 _ _) fun a2 b2 h2 => ?_
  refine simres_bind (add_data_sim h2 _ _) fun a3 b3 h3 => ?_
  refine simres_bind (add_data_sim h3 _ _) fun a4 b4 h4 => ?_
  exact add_data_sim h4 _ _

theorem finish_without_body_sim {a b : http_response_t} (h : Sim a b) :
    SimRes (finish_without_body a) (finish_without_body b) := by
  obtain ⟨hs, hl, h0, ha, hb, hbytes⟩ := h
  obtain ⟨fa, ea, ia⟩ := scan_bytes a "Content-Type".toList _ h0 ha rfl
  obtain ⟨fb, eb, ib⟩ := scan_bytes b "Content-Type".toList _ (by omega) hb rfl
  have hf : fa = fb := by
    rw [hbytes] at ia
    have : fa = true ↔ fb = true := ia.trans ib.symm
    cases fa <;> cases fb <;> simp_all
  subst hf
  have hsim : Sim a b := ⟨hs, hl, h0, ha, hb, hbytes⟩
  unfold finish_without_body
  simp only []
  rw [hl] at ea ⊢
  cases hi : int_op (b.data_length - strlen "Content-Type".toList) with
  | error e => exact rfl
  | ok stop =>
    obtain ⟨rfl, _, _⟩ := int_op_inv hi
    rw [ok_bind, ok_bind, ea, eb, ok_bind, ok_bind]
    refine simres_bind ?_ fun a3 b3 h3 => add_data_sim h3 _ _
    cases fa with
    | false => exact hsim
    | true => exact simres_bind (add_data_sim hsim _ _) fun a1 b1 h1 => add_data_sim h1 _ _

theorem finish_sim {a b : http_response_t} (h : Sim a b) (data : Option (List Char))
    (datalen : Int) :
    SimRes (http_response_finish a data datalen) (http_response_finish b data datalen) := by
  have hset : ∀ x y, Sim x y →
      SimRes (pure { x with complete := 1 }) (pure { y with complete := 1 }) := fun x y hxy => hxy
  unfold http_response_finish
  refine simres_assert _ fun _ => ?_
  refine simres_bind ?_ hset
  split
  · exact finish_with_body_sim h _ _
  · exact finish_without_body_sim h

theorem run_cycle_sim (s t : http_response_t) (hs : s.data_size = t.data_size)
    (protocol : List Char) (code : Int) (message : List Char)
    (headers : List (List Char × List Char)) (body : Option (List Char)) (datalen : Int) :
    SimRes (run_cycle s protocol code message headers body datalen)
      (run_cycle t protocol code message headers body datalen) := by
  unfold run_cycle
  refine simres_bind (init_sim s t hs _ _ _) fun a1 b1 h1 => ?_
  exact simres_bind (add_headers_sim headers h1) fun a2 b2 h2 => finish_sim h2 _ _

theorem bind_ok_inv {α β : Type} {x : Except Fault α} {f : α → Except Fault β} {b : β}
    (h : (x >>= f) = .ok b) : ∃ a, x = .ok a ∧ f a = .ok b := by
  cases x with
  | error e => cases h
  | ok a => exact ⟨a, rfl, h⟩

theorem add_data_size {r r' : http_response_t} {data : List Char} {d : Int}
    (h : http_response_add_data r data d = .ok r') : r'.data_size = r.data_size :=
  (add_data_inv h).2.2.2.1

theorem init_tidy {s r : http_response_t} {protocol message : List Char} {code : Int}
    (hs : s.data_size = 1024) (h : http_response_init s protocol code message = .ok r) :
    Tidy r := by
  unfold http_response_init at h
  obtain ⟨_, _, h⟩ := bind_ok_inv h
  obtain ⟨r1, e1, h⟩ := bind_ok_inv h
  obtain ⟨r2, e2, h⟩ := bind_ok_inv h
  obtain ⟨r3, e3, h⟩ := bind_ok_inv h
  obtain ⟨r4, e4, h⟩ := bind_ok_inv h
  obtain ⟨r5, e5, h⟩ := bind_ok_inv h
  refine add_data_tidy ?_ h
  rw [add_data_size e5, add_data_size e4, add_data_size e3, add_data_size e2, add_data_size e1]
  exact hs

theorem reverse_request_init_tidy {s r : http_response_t} {method url protocol : List Char}
    (hs : s.data_size = 1024)
    (h : http_response_reverse_request_init s method url protocol = .ok r) : Tidy r := by
  unfold http_response_reverse_request_init at h
  obtain ⟨r1, e1, h⟩ := bind_ok_inv h
  obtain ⟨r2, e2, h⟩ := bind_ok_inv h
  obtain ⟨r3, e3, h⟩ := bind_ok_inv h
  obtain ⟨r4, e4, h⟩ := bind_ok_inv h
  obtain ⟨r5, e5, h⟩ := bind_ok_inv h
  refine add_data_tidy ?_ h
  rw [add_data_size e5, add_data_size e4, add_data_size e3, add_data_size e2, add_data_size e1]
  exact hs

theorem add_header_tidy {r r' : http_response_t} {name value : List Char}
    (hs : r.data_size = 1024) (h : http_response_add_header r name value = .ok r') :
    Tidy r' := by
  unfold http_response_add_header at h
  obtain ⟨r1, e1, h⟩ := bind_ok_inv h
  obtain ⟨r2, e2, h⟩ := bind_ok_inv h
  obtain ⟨r3, e3, h⟩ := bind_ok_inv h
  refine add_data_tidy ?_ h
  rw [add_data_size e3, add_data_size e2, add_data_size e1]
  exact hs

/-- Between initialisation and finish the bytes lie inside the block. -/
theorem in_headers_tidy {r : http_response_t} (h : InHeaders r) : Tidy r := by
  induction h with
  | init s r protocol code message hs h => exact init_tidy hs h
  | reverse_request_init s r method url protocol hs h => exact reverse_request_init_tidy hs h
  | add_header r r' name value _ h ih => exact add_header_tidy ih.1 h

theorem doubling_grown (d : Int) (h0 : 0 < d) (h1 : d ≤ 3072) :
    doubling 1024 d 64 1024 = .ok (grown d) := by
  unfold grown
  split
  · exact doubling_2048 d h0 (by assumption)
  · exact doubling_4096 d (by omega) h1

theorem grown_cases (d : Int) : (d ≤ 1024 ∧ grown d = 2048) ∨ (1024 < d ∧ grown d = 4096) := by
  unfold grown
  split
  · exact Or.inl ⟨by assumption, rfl⟩
  · exact Or.inr ⟨by omega, rfl⟩

/-- An append of at most 3072 bytes to a builder with the capacity field 1024:
the block is reallocated to `grown datalen` bytes, whatever its size and
`data_length` were, and the copy follows. -/
theorem add_data_eval (r : http_response_t) (data : List Char) (d : Int)
    (hs : r.data_size = 1024) (h0 : 0 < d) (h1 : d ≤ 3072) :
    http_response_add_data r data d =
      (memcpy (realloc r.data (grown d)) r.data_length data d >>= fun block =>
        pure { r with data := block, data_length := r.data_length + d }) := by
  have hm : doubling r.data_size d 64 r.data_size = .ok (grown d) := by
    rw [hs]; exact doubling_grown d h0 h1
  rw [add_data_unfold r data d _ h0 hm]
  cases hc : memcpy (realloc r.data (grown d)) r.data_length data d with
  | error e => rfl
  | ok block =>
    obtain ⟨c0, _, c2, _, _⟩ := memcpy_inv hc
    rw [length_realloc] at c2
    have hg := grown_cases d
    rw [ok_bind, ok_bind, int_op_ok _ (by omega) (by omega), ok_bind]

/-- The append that overruns: when `data_length + datalen` is more than the
size the block has just been reallocated to, `memcpy` leaves the block. -/
theorem add_data_overrun (r : http_response_t) (data : List Char) (d : Int)
    (hs : r.data_size = 1024) (h0 : 0 < d) (h1 : d ≤ 3072)
    (hover : grown d < r.data_length + d) :
    http_response_add_data r data d = .error .bounds := by
  have hg := grown_cases d
  rw [add_data_eval r data d hs h0 h1, memcpy_err _ _ _ _
    (by rw [length_realloc]; omega), error_bind]

/-- The append that fits: on a tidy state, a string of at most 3072 bytes that
ends inside the reallocated block is appended as it stands. -/
theorem add_str_ok (r : http_response_t) (s : List Char) (ht : Tidy r) (hd : s ≠ [])
    (h1 : s.length ≤ 3072) (hfit : r.data_length + s.length ≤ grown s.length) :
    ∃ r', http_response_add_data r s (strlen s) = .ok r' ∧
      bytes r' = bytes r ++ s ∧ r'.data_length = r.data_length + s.length ∧ Tidy r' ∧
      (r'.data.length : Int) = grown s.length ∧
      r'.complete = r.complete ∧ r'.disconnect = r.disconnect := by
  have hpos : 0 < s.length := List.length_pos.mpr hd
  have hg := grown_cases s.length
  have h0 := ht.2.1
  have hlay := memcpy_layout (realloc r.data (grown s.length)) s r.data_length.toNat s.length
    (by rw [length_realloc]; omega) (le_refl _)
  have hev : http_response_add_data r s (strlen s) =
      .ok { r with
        data := (realloc r.data (grown s.length)).take r.data_length.toNat ++
          s.take (s.length : Int).toNat ++
          (realloc r.data (grown s.length)).drop (r.data_length.toNat + (s.length : Int).toNat),
        data_length := r.data_length + s.length } := by
    unfold strlen
    rw [add_data_eval r s _ ht.1 (by omega) (by omega),
      memcpy_ok _ _ _ _ h0 (by omega) (by rw [length_realloc]; omega) (le_refl _), ok_bind]
    rfl
  obtain ⟨_, _, _, i1, i2, i3, i4, i5, _, i6⟩ := add_data_inv hev
  refine ⟨_, hev, ?_, rfl, ⟨ht.1, by show 0 ≤ r.data_length + s.length; omega, i5⟩, ?_, rfl, rfl⟩
  · rw [i6 ht.2.2]
    congr 1
    exact List.take_of_length_le (by unfold strlen; omega)
  · show ((_ : List Char).length : Int) = _
    rw [Int.toNat_ofNat, hlay.1, length_realloc]
    omega

/-- A header line that ends inside the first 2048 bytes is appended as it
stands. -/
theorem add_header_fits (r : http_response_t) (name value : List Char) (ht : Tidy r)
    (hn : name ≠ []) (hv : value ≠ [])
    (hfit : r.data_length + name.length + value.length + 4 ≤ 2048) :
    ∃ r', http_response_add_header r name value = .ok r' ∧
      bytes r' = bytes r ++ name ++ ": ".toList ++ value ++ "\r\n".toList ∧
      r'.data_length = r.data_length + name.length + value.length + 4 ∧ Tidy r' ∧
      (r'.data.length : Int) = 2048 ∧
      r'.complete = r.complete ∧ r'.disconnect = r.disconnect := by
  have kcs : (": ".toList.length : Int) = 2 := rfl
  have knl : ("\r\n".toList.length : Int) = 2 := rfl
  have h0 := ht.2.1
  obtain ⟨r1, e1, b1, l1, t1, c1, d1⟩ := add_str_fits r name ht hn (by omega)
  obtain ⟨r2, e2, b2, l2, t2, c2, d2⟩ := add_str_fits r1 ": ".toList t1 (by decide) (by omega)
  obtain ⟨r3, e3, b3, l3, t3, c3, d3⟩ := add_str_fits r2 value t2 hv (by omega)
  obtain ⟨r4, e4, b4, l4, t4, g4, c4, d4⟩ := add_str_ok r3 "\r\n".toList t3 (by decide)
    (by decide) (by rw [show grown ("\r\n".toList.length : Int) = 2048 from rfl]; omega)
  have e2' : http_response_add_data r1 ": ".toList 2 = .ok r2 := e2
  have e4' : http_response_add_data r3 "\r\n".toList 2 = .ok r4 := e4
  refine ⟨r4, ?_, ?_, by omega, t4, g4, ?_, ?_⟩
  · simp only [http_response_add_header, e1, ok_bind, e2', e3, e4']
  · rw [b4, b3, b2, b1]
  · rw [c4, c3, c2, c1]
  · rw [d4, d3, d2, d1]

/-- A header line whose name, separator and value are appended and whose
final `"\r\n"` would end beyond byte 2048: the last append overruns the
block. -/
theorem add_header_overrun (r : http_response_t) (name value : List Char) (ht : Tidy r)
    (hn : name ≠ []) (hv : value ≠ []) (hname : r.data_length + name.length + 2 ≤ 2048)
    (hv1 : value.length ≤ 3072)
    (hv2 : r.data_length + name.length + 2 + value.length ≤ grown value.length)
    (hover : 2048 < r.data_length + name.length + value.length + 4) :
    http_response_add_header r name value = .error .bounds := by
  have kcs : (": ".toList.length : Int) = 2 := rfl
  have h0 := ht.2.1
  obtain ⟨r1, e1, b1, l1, t1, c1, d1⟩ := add_str_fits r name ht hn (by omega)
  obtain ⟨r2, e2, b2, l2, t2, c2, d2⟩ := add_str_fits r1 ": ".toList t1 (by decide) (by omega)
  obtain ⟨r3, e3, b3, l3, t3, g3, c3, d3⟩ := add_str_ok r2 value t2 hv (by omega)
    (by rw [l2, l1, kcs]; exact hv2)
  have e2' : http_response_add_data r1 ": ".toList 2 = .ok r2 := e2
  have e4 : http_response_add_data r3 "\r\n".toList 2 = .error .bounds :=
    add_data_overrun r3 _ 2 t3.1 (by decide) (by decide)
      (by rw [show grown 2 = 2048 from rfl]; omega)
  simp only [http_response_add_header, e1, ok_bind, e2', e3, e4]

/-- With a body, `http_response_finish` takes its first branch. -/
theorem finish_body_unfold (r : http_response_t) (body : List Char) (d : Int) (hd : 0 < d) :
    http_response_finish r (some body) d =
      (finish_with_body r body d >>= fun r' => pure { r' with complete := 1 }) := by
  have h2 : decide (d > 0) = true := by simp [hd]
  simp only [http_response_finish, c_assert, h2, Option.isSome_some, Bool.and_self, Bool.or_true,
    if_true, ok_bind]

/-- The body branch on a header block that leaves less than 14 bytes below
byte 2048: the append of `"Content-Length"` overruns the block. -/
theorem finish_body_overrun (r : http_response_t) (body : List Char) (d : Int) (ht : Tidy r)
    (hd : 0 < d) (hover : 2048 < r.data_length + 14) :
    http_response_finish r (some body) d = .error .bounds := by
  have e : http_response_add_data r "Content-Length".toList (strlen "Content-Length".toList) =
      .error .bounds :=
    add_data_overrun r _ _ ht.1 (by decide) (by decide)
      (by rw [show grown (strlen "Content-Length".toList) = 2048 from rfl,
        show strlen "Content-Length".toList = 14 from rfl]; exact hover)
  rw [finish_body_unfold r body d hd]
  simp only [finish_with_body, e, error_bind]

/-- The body branch when everything fits: the `Content-Length` line with the
printed length `v`, the blank line and the body are appended. -/
theorem finish_body_ok (r : http_response_t) (body v : List Char) (d : Int) (ht : Tidy r)
    (hd : d = body.length) (hb : body ≠ []) (hv : snprintf (16 - 1) (fmt_d d) = v)
    (hv0 : v ≠ []) (hhead : r.data_length + 20 + v.length ≤ 2048)
    (hb1 : body.length ≤ 3072)
    (hfit : r.data_length + 20 + v.length + body.length ≤ grown body.length) :
    ∃ r', http_response_finish r (some body) d = .ok r' ∧
      bytes r' = bytes r ++ "Content-Length".toList ++ ": ".toList ++ v ++ "\r\n\r\n".toList ++
        body ∧
      r'.data_length = r.data_length + 20 + v.length + body.length ∧ Tidy r' ∧
      (r'.data.length : Int) = grown body.length ∧ r'.complete = 1 ∧
      r'.disconnect = r.disconnect := by
  have kcl : ("Content-Length".toList.length : Int) = 14 := rfl
  have kcs : (": ".toList.length : Int) = 2 := rfl
  have knl : ("\r\n\r\n".toList.length : Int) = 4 := rfl
  have h0 := ht.2.1
  have hpos : 0 < body.length := List.length_pos.mpr hb
  obtain ⟨r1, e1, b1, l1, t1, c1, d1⟩ :=
    add_str_fits r "Content-Length".toList ht (by decide) (by omega)
  obtain ⟨r2, e2, b2, l2, t2, c2, d2⟩ := add_str_fits r1 ": ".toList t1 (by decide) (by omega)
  obtain ⟨r3, e3, b3, l3, t3, c3, d3⟩ := add_str_fits r2 v t2 hv0 (by omega)
  obtain ⟨r4, e4, b4, l4, t4, c4, d4⟩ :=
    add_str_fits r3 "\r\n\r\n".toList t3 (by decide) (by omega)
  obtain ⟨r5, e5, b5, l5, t5, g5, c5, d5⟩ := add_str_ok r4 body t4 hb (by omega)
    (by rw [l4, l3, l2, l1, kcl, kcs, knl]; omega)
  have e2' : http_response_add_data r1 ": ".toList 2 = .ok r2 := e2
  have e4' : http_response_add_data r3 "\r\n\r\n".toList 4 = .ok r4 := e4
  have e5' : http_response_add_data r4 body d = .ok r5 := by rw [hd]; exact e5
  refine ⟨{ r5 with complete := 1 }, ?_, ?_, ?_, t5, g5, rfl, ?_⟩
  · rw [finish_body_unfold r body d (by omega)]
    simp only [finish_with_body, hv, e1, ok_bind, e2', e3, e4', e5']
    rfl
  · show bytes r5 = _
    rw [b5, b4, b3, b2, b1]
  · show r5.data_length = _
    omega
  · show r5.disconnect = _
    rw [d5, d4, d3, d2, d1]

/-- The empty-body branch when `Content-Type` is found and less than 17 bytes
are left below byte 2048: the append of `"Content-Length: 0"` overruns the
block. -/
theorem finish_empty_overrun (r : http_response_t) (data : Option (List Char)) (ht : Tidy r)
    (hyes : ∃ j, j + "Content-Type".toList.length < (bytes r).length ∧
      ((bytes r).drop j).take "Content-Type".toList.length = "Content-Type".toList)
    (hover : 2048 < r.data_length + 17) (hlen : r.data_length ≤ 2048) :
    http_response_finish r data 0 = .error .bounds := by
  obtain ⟨b, hb1, hb2⟩ := scan_bytes r "Content-Type".toList _ ht.2.1 ht.2.2 rfl
  have hb : b = true := hb2.mpr hyes
  subst hb
  have hst : int_op (r.data_length - strlen "Content-Type".toList) =
      .ok (r.data_length - strlen "Content-Type".toList) := by
    have k : strlen "Content-Type".toList = 12 := rfl
    have := ht.2.1
    exact int_op_ok _ (by omega) (by omega)
  have e : http_response_add_data r "Content-Length: 0".toList
      (strlen "Content-Length: 0".toList) = .error .bounds :=
    add_data_overrun r _ _ ht.1 (by decide) (by decide)
      (by rw [show grown (strlen "Content-Length: 0".toList) = 2048 from rfl,
        show strlen "Content-Length: 0".toList = 17 from rfl]; exact hover)
  rw [finish_empty_unfold]
  simp only [finish_without_body, hst, ok_bind, hb1, e, error_bind]

theorem bytes_length (r : http_response_t) (ht : Tidy r) :
    ((bytes r).length : Int) = r.data_length := by
  have h0 := ht.2.1
  have hb := ht.2.2
  simp only [bytes, List.length_take]
  omega

theorem replicate_ne_nil (n : Nat) (c : Char) (h : 0 < n) : List.replicate n c ≠ [] := by
  intro hc
  have := congrArg List.length hc
  simp only [List.length_replicate, List.length_nil] at this
  omega

/-- On a fresh builder the first line `HTTP/1.1 c OK` and the finish with an
empty body: the bytes, and what is left of the state. -/
theorem first_cycle (c : Int) (h1 : 100 ≤ c) (h2 : c < 1000) (body : Option (List Char)) :
    ∃ r r', http_response_init http_response_create "HTTP/1.1".toList c "OK".toList = .ok r ∧
      http_response_finish r body 0 = .ok r' ∧
      bytes r' = "HTTP/1.1 ".toList ++ Nat.toDigits 10 c.toNat ++ " OK\r\n\r\n".toList ∧
      r.data_length = 17 ∧ r'.data_length = 19 ∧ Tidy r ∧ Tidy r' ∧ r.complete = 0 ∧
      r'.complete = 1 := by
  obtain ⟨_, hc2, hc3, hc4⟩ := codestr_digits c h1 h2
  obtain ⟨r, e1, b1, l1, t1, c1, _⟩ := init_fits http_response_create "HTTP/1.1".toList
    "OK".toList c rfl h1 h2 (by decide) (by decide) (by decide)
  have l1' : r.data_length = 17 := l1
  have hC : 'C' ∉ bytes r := by
    rw [b1]
    simp only [List.mem_append, not_or]
    exact ⟨⟨⟨⟨⟨by decide, by decide⟩, hc4⟩, by decide⟩, by decide⟩, by decide⟩
  have hno : ¬ ∃ j, j + "Content-Type".toList.length < (bytes r).length ∧
      ((bytes r).drop j).take "Content-Type".toList.length = "Content-Type".toList := by
    rintro ⟨j, _, hj⟩
    exact hC ((window_occurs _ _ j hj).subset (by decide))
  obtain ⟨r', e2, b2, l2, t2, c2, _⟩ := finish_empty_plain r body t1 hno (by omega)
  refine ⟨r, r', e1, e2, ?_, l1', by omega, t1, t2, c1, c2⟩
  rw [b2, b1]
  simp only [List.append_assoc]
  rfl

/-- The state after `http_response_init(r, "HTTP/1.1", 200, "OK")` on a fresh
builder. -/
theorem first_line_200 :
    ∃ r, http_response_init http_response_create "HTTP/1.1".toList 200 "OK".toList = .ok r ∧
      bytes r = "HTTP/1.1 200 OK\r\n".toList ∧ r.data_length = 17 ∧ Tidy r := by
  obtain ⟨r, e1, b1, l1, t1, _, _⟩ := init_fits http_response_create "HTTP/1.1".toList
    "OK".toList 200 rfl (by decide) (by decide) (by decide) (by decide) (by decide)
  exact ⟨r, e1, b1, l1, t1⟩

theorem state_of_ok {x : Except Fault http_response_t} {r : http_response_t} (h : x = .ok r) :
    state_of x = r := by
  subst h; rfl

theorem first_line_state_eq :
    http_response_init http_response_create "HTTP/1.1".toList 200 "OK".toList =
      .ok first_line_state ∧
    bytes first_line_state = "HTTP/1.1 200 OK\r\n".toList ∧ first_line_state.data_length = 17 ∧
    Tidy first_line_state := by
  obtain ⟨r, e, b, l, t⟩ := first_line_200
  have h : first_line_state = r := state_of_ok e
  rw [h]
  exact ⟨e, b, l, t⟩

theorem used_state_eq :
    (http_response_init http_response_create "HTTP/1.1".toList 200 "OK".toList >>= fun r =>
      http_response_finish r none 0) = .ok used_state ∧
    bytes used_state = "HTTP/1.1 200 OK\r\n\r\n".toList ∧ used_state.data_length = 19 ∧
    Tidy used_state ∧ used_state.complete = 1 := by
  obtain ⟨r, r', e1, e2, b, _, l, _, t, _, c⟩ := first_cycle 200 (by decide) (by decide) none
  have e : (http_response_init http_response_create "HTTP/1.1".toList 200 "OK".toList >>=
      fun r => http_response_finish r none 0) = .ok r' := by rw [e1, ok_bind, e2]
  have h : used_state = r' := state_of_ok e
  rw [h]
  exact ⟨e, b, l, t, c⟩

/-- A request line that ends inside the first 2048 bytes is written as it
stands: method, url, protocol, each followed by its separator. -/
theorem reverse_request_init_fits (r : http_response_t) (method url protocol : List Char)
    (hs : r.data_size = 1024) (hm : method ≠ []) (hu : url ≠ []) (hp : protocol ≠ [])
    (hfit : method.length + url.length + protocol.length + 4 ≤ 2048) :
    ∃ r', http_response_reverse_request_init r method url protocol = .ok r' ∧
      bytes r' = method ++ " ".toList ++ url ++ " ".toList ++ protocol ++ "\r\n".toList ∧
      r'.data_length = method.length + url.length + protocol.length + 4 ∧ Tidy r' ∧
      r'.complete = r.complete ∧ r'.disconnect = r.disconnect := by
  have t0 : Tidy { r with data_length := 0 } := ⟨hs, le_refl _, Int.ofNat_nonneg _⟩
  have ksp : (" ".toList.length : Int) = 1 := rfl
  have knl : ("\r\n".toList.length : Int) = 2 := rfl
  obtain ⟨r1, e1, b1, l1, t1, c1, d1⟩ := add_str_fits _ method t0 hm (by simp only; omega)
  simp only [zero_add] at l1
  obtain ⟨r2, e2, b2, l2, t2, c2, d2⟩ := add_str_fits r1 " ".toList t1 (by decide) (by omega)
  obtain ⟨r3, e3, b3, l3, t3, c3, d3⟩ := add_str_fits r2 url t2 hu (by omega)
  obtain ⟨r4, e4, b4, l4, t4, c4, d4⟩ := add_str_fits r3 " ".toList t3 (by decide) (by omega)
  obtain ⟨r5, e5, b5, l5, t5, c5, d5⟩ := add_str_fits r4 protocol t4 hp (by omega)
  obtain ⟨r6, e6, b6, l6, t6, c6, d6⟩ := add_str_fits r5 "\r\n".toList t5 (by decide) (by omega)
  refine ⟨r6, ?_, ?_, by omega, t6, ?_, ?_⟩
  · have e2' : http_response_add_data r1 " ".toList 1 = .ok r2 := e2
    have e4' : http_response_add_data r3 " ".toList 1 = .ok r4 := e4
    have e6' : http_response_add_data r5 "\r\n".toList 2 = .ok r6 := e6
    simp only [http_response_reverse_request_init, ok_bind, e1, e2', e3, e4', e5, e6']
  · rw [b6, b5, b4, b3, b2, b1]
    rfl
  · rw [c6, c5, c4, c3, c2, c1]
  · rw [d6, d5, d4, d3, d2, d1]

theorem window_at (A item rest : List Char) :
    ((A ++ (item ++ rest)).drop A.length).take item.length = item := by
  rw [List.drop_left, List.take_left]

theorem int_op_fault {x : Int} {e : Fault} (h : int_op x = .error e) : e = .overflow := by
  unfold int_op at h
  split at h
  · cases h
  · cases h; rfl

/-- The fuel of the loop is not what stops it: from a size other than 0 inside
`int`, with enough fuel to double past the range of `int`, the loop exits or
overflows.  The 64 iterations `http_response_add_data` grants are enough for
every such size. -/
theorem doubling_fuel (S d : Int) : ∀ (fuel : Nat) (n : Int), n ≠ 0 →
    -2147483648 ≤ n → n ≤ 2147483647 → 4294967296 ≤ n.natAbs * 2 ^ fuel →
    doubling S d fuel n ≠ .error .diverge := by
  intro fuel
  induction fuel with
  | zero =>
    intro n _ h1 h2 h3
    simp only [pow_zero, mul_one] at h3
    omega
  | succ fuel ih =>
    intro n hn h1 h2 h3 hd
    simp only [doubling] at hd
    cases hs : int_op (S + d) with
    | error e =>
      rw [hs, error_bind] at hd
      have := int_op_fault hs
      subst this
      cases hd
    | ok t =>
      rw [hs, ok_bind] at hd
      split at hd
      · cases hm : int_op (n * 2) with
        | error e =>
          rw [hm, error_bind] at hd
          have := int_op_fault hm
          subst this
          cases hd
        | ok m =>
          rw [hm, ok_bind] at hd
          obtain ⟨rfl, m1, m2⟩ := int_op_inv hm
          refine ih (n * 2) (by omega) m1 m2 ?_ hd
          have e : (n * 2).natAbs = n.natAbs * 2 := by omega
          rw [e, Nat.mul_assoc, ← Nat.pow_succ']
          exact h3
      · cases hd

/-- With the capacity field at 0 the loop of `http_response_add_data` never
exits: no amount of fuel yields a size. -/
theorem doubling_zero (d : Int) (hd : 0 < d) (h : d ≤ 2147483647) :
    ∀ fuel : Nat, doubling 0 d fuel 0 = .error .diverge := by
  intro fuel
  induction fuel with
  | zero => rfl
  | succ fuel ih =>
    rw [doubling_step 0 d 0 fuel (by omega) (by omega) (by omega) (by omega) (by omega)]
    exact ih

/-- An append of no bytes fails the assertion `datalen > 0`. -/
theorem add_data_empty (r : http_response_t) (data : List Char) :
    http_response_add_data r data 0 = .error .assertion := rfl

/-- A first line whose message is appended and whose final `"\r\n"` would end
beyond byte 2048: the last append overruns the block. -/
theorem init_overrun (r : http_response_t) (protocol message : List Char) (c : Int)
    (hs : r.data_size = 1024) (h1 : 100 ≤ c) (h2 : c < 1000) (hp : protocol ≠ [])
    (hm : message ≠ []) (hp1 : protocol.length + 5 ≤ 2048) (hm1 : message.length ≤ 3072)
    (hm2 : protocol.length + 5 + message.length ≤ grown message.length)
    (hover : 2048 < protocol.length + message.length + 7) :
    http_response_init r protocol c message = .error .bounds := by
  obtain ⟨hc1, hc2, _, _⟩ := codestr_digits c h1 h2
  have hlen : (Nat.toDigits 10 c.toNat).length = 3 := by rw [hc2]; rfl
  have t0 : Tidy { r with data_length := 0 } := ⟨hs, le_refl _, Int.ofNat_nonneg _⟩
  have ksp : (" ".toList.length : Int) = 1 := rfl
  have kd : ((Nat.toDigits 10 c.toNat).length : Int) = 3 := by rw [hlen]; rfl
  obtain ⟨r1, e1, b1, l1, t1, c1, d1⟩ := add_str_fits _ protocol t0 hp (by simp only; omega)
  simp only [zero_add] at l1
  obtain ⟨r2, e2, b2, l2, t2, c2, d2⟩ := add_str_fits r1 " ".toList t1 (by decide) (by omega)
  obtain ⟨r3, e3, b3, l3, t3, c3, d3⟩ := add_str_fits r2 (Nat.toDigits 10 c.toNat) t2
    (by rw [hc2]; exact List.cons_ne_nil _ _) (by omega)
  obtain ⟨r4, e4, b4, l4, t4, c4, d4⟩ := add_str_fits r3 " ".toList t3 (by decide) (by omega)
  obtain ⟨r5, e5, b5, l5, t5, g5, c5, d5⟩ := add_str_ok r4 message t4 hm (by omega)
    (by rw [l4, l3, l2, l1, ksp, kd]; omega)
  have e6 : http_response_add_data r5 "\r\n".toList 2 = .error .bounds :=
    add_data_overrun r5 _ 2 t5.1 (by decide) (by decide)
      (by rw [show grown 2 = 2048 from rfl]; omega)
  have ha : (decide (c ≥ 100) && decide (c < 1000)) = true := by simp [h1, h2]
  have e2' : http_response_add_data r1 " ".toList 1 = .ok r2 := e2
  have e4' : http_response_add_data r3 " ".toList 1 = .ok r4 := e4
  simp only [http_response_init, c_assert, ha, if_true, ok_bind, hc1, e1, e2', e3, e4', e5, e6]

/-- A request line whose url is appended and whose next separator would end
beyond the reallocated block: that append overruns the block. -/
theorem reverse_request_init_overrun (r : http_response_t) (method url protocol : List Char)
    (hs : r.data_size = 1024) (hm : method ≠ []) (hu : url ≠ [])
    (hm1 : method.length + 1 ≤ 2048) (hu1 : url.length ≤ 3072)
    (hu2 : method.length + 1 + url.length ≤ grown url.length)
    (hover : 2048 < method.length + url.length + 2) :
    http_response_reverse_request_init r method url protocol = .error .bounds := by
  have t0 : Tidy { r with data_length := 0 } := ⟨hs, le_refl _, Int.ofNat_nonneg _⟩
  have ksp : (" ".toList.length : Int) = 1 := rfl
  obtain ⟨r1, e1, b1, l1, t1, c1, d1⟩ := add_str_fits _ method t0 hm (by simp only; omega)
  simp only [zero_add] at l1
  obtain ⟨r2, e2, b2, l2, t2, c2, d2⟩ := add_str_fits r1 " ".toList t1 (by decide) (by omega)
  obtain ⟨r3, e3, b3, l3, t3, g3, c3, d3⟩ := add_str_ok r2 url t2 hu (by omega)
    (by rw [l2, l1, ksp]; omega)
  have e4 : http_response_add_data r3 " ".toList 1 = .error .bounds :=
    add_data_overrun r3 _ 1 t3.1 (by decide) (by decide)
      (by rw [show grown 1 = 2048 from rfl]; omega)
  have e2' : http_response_add_data r1 " ".toList 1 = .ok r2 := e2
  simp only [http_response_reverse_request_init, ok_bind, e1, e2', e3, e4, error_bind]

theorem map_const_of_ok {α β : Type} {x : Except Fault α} {f : α → β} {v : β}
    (h : ∀ a, x = .ok a → f a = v) : x.map f = x.map (fun _ => v) := by
  cases x with
  | error e => rfl
  | ok a => exact congrArg Except.ok (h a rfl)

theorem add_data_disconnect {r r' : http_response_t} {data : List Char} {d : Int}
    (h : http_response_add_data r data d = .ok r') : r'.disconnect = r.disconnect :=
  (add_data_inv h).2.2.2.2.2.1

theorem init_disconnect {s r : http_response_t} {protocol message : List Char} {code : Int}
    (h : http_response_init s protocol code message = .ok r) : r.disconnect = s.disconnect := by
  unfold http_response_init at h
  obtain ⟨_, _, h⟩ := bind_ok_inv h
  obtain ⟨r1, e1, h⟩ := bind_ok_inv h
  obtain ⟨r2, e2, h⟩ := bind_ok_inv h
  obtain ⟨r3, e3, h⟩ := bind_ok_inv h
  obtain ⟨r4, e4, h⟩ := bind_ok_inv h
  obtain ⟨r5, e5, h⟩ := bind_ok_inv h
  rw [add_data_disconnect h, add_data_disconnect e5, add_data_disconnect e4,
    add_data_disconnect e3, add_data_disconnect e2, add_data_disconnect e1]

theorem reverse_request_init_disconnect {s r : http_response_t}
    {method url protocol : List Char}
    (h : http_response_reverse_request_init s method url protocol = .ok r) :
    r.disconnect = s.disconnect := by
  unfold http_response_reverse_request_init at h
  obtain ⟨r1, e1, h⟩ := bind_ok_inv h
  obtain ⟨r2, e2, h⟩ := bind_ok_inv h
  obtain ⟨r3, e3, h⟩ := bind_ok_inv h
  obtain ⟨r4, e4, h⟩ := bind_ok_inv h
  obtain ⟨r5, e5, h⟩ := bind_ok_inv h
  rw [add_data_disconnect h, add_data_disconnect e5, add_data_disconnect e4,
    add_data_disconnect e3, add_data_disconnect e2, add_data_disconnect e1]

theorem add_header_disconnect {r r' : http_response_t} {name value : List Char}
    (h : http_response_add_header r name value = .ok r') : r'.disconnect = r.disconnect := by
  unfold http_response_add_header at h
  obtain ⟨r1, e1, h⟩ := bind_ok_inv h
  obtain ⟨r2, e2, h⟩ := bind_ok_inv h
  obtain ⟨r3, e3, h⟩ := bind_ok_inv h
  rw [add_data_disconnect h, add_data_disconnect e3, add_data_disconnect e2,
    add_data_disconnect e1]

theorem finish_with_body_disconnect {r r' : http_response_t} {body : List Char} {d : Int}
    (h : finish_with_body r body d = .ok r') : r'.disconnect = r.disconnect := by
  unfold finish_with_body at h
  obtain ⟨r1, e1, h⟩ := bind_ok_inv h
  obtain ⟨r2, e2, h⟩ := bind_ok_inv h
  obtain ⟨r3, e3, h⟩ := bind_ok_inv h
  obtain ⟨r4, e4, h⟩ := bind_ok_inv h
  rw [add_data_disconnect h, add_data_disconnect e4, add_data_disconnect e3,
    add_data_disconnect e2, add_data_disconnect e1]

theorem finish_without_body_disconnect {r r' : http_response_t}
    (h : finish_without_body r = .ok r') : r'.disconnect = r.disconnect := by
  unfold finish_without_body at h
  obtain ⟨stop, _, h⟩ := bind_ok_inv h
  obtain ⟨found, _, h⟩ := bind_ok_inv h
  obtain ⟨r2, e2, h⟩ := bind_ok_inv h
  rw [add_data_disconnect h]
  cases found with
  | false => cases e2; rfl
  | true =>
    obtain ⟨r1, e1, e2⟩ := bind_ok_inv e2
    rw [add_data_disconnect e2, add_data_disconnect e1]

theorem finish_disconnect {r r' : http_response_t} {data : Option (List Char)} {d : Int}
    (h : http_response_finish r data d = .ok r') : r'.disconnect = r.disconnect := by
  unfold http_response_finish at h
  obtain ⟨_, _, h⟩ := bind_ok_inv h
  obtain ⟨r1, e1, h⟩ := bind_ok_inv h
  cases h
  show r1.disconnect = r.disconnect
  split at e1
  · exact finish_with_body_disconnect e1
  · exact finish_without_body_disconnect e1

/-- A successful append of a whole string on a state whose bytes lie inside the
block: the bytes afterwards are the bytes before and the string. -/
theorem add_str_inv {r r' : http_response_t} {s : List Char}
    (h : http_response_add_data r s (strlen s) = .ok r') (hb : r.data_length ≤ r.data.length) :
    bytes r' = bytes r ++ s ∧ r'.data_length ≤ r'.data.length ∧ s ≠ [] := by
  obtain ⟨h0, _, _, _, _, _, _, i5, _, i6⟩ := add_data_inv h
  refine ⟨?_, i5, ?_⟩
  · rw [i6 hb]
    congr 1
    exact List.take_of_length_le (by unfold strlen; omega)
  · intro hs
    subst hs
    exact absurd h0 (by decide)

/-- Whatever state `http_response_init` starts from, when it succeeds the code
is in range and the bytes are the first line. -/
theorem init_bytes {s r : http_response_t} {protocol message : List Char} {code : Int}
    (h : http_response_init s protocol code message = .ok r) :
    100 ≤ code ∧ code < 1000 ∧
    bytes r = protocol ++ " ".toList ++ Nat.toDigits 10 code.toNat ++ " ".toList ++ message ++
      "\r\n".toList ∧
    r.data_length ≤ r.data.length := by
  unfold http_response_init at h
  obtain ⟨_, ha, h⟩ := bind_ok_inv h
  have hc : 100 ≤ code ∧ code < 1000 := by
    unfold c_assert at ha
    split at ha
    · rename_i hc
      simpa using hc
    · cases ha
  obtain ⟨hc1, _⟩ := codestr_digits code hc.1 hc.2
  simp only [hc1] at h
  obtain ⟨r1, e1, h⟩ := bind_ok_inv h
  obtain ⟨r2, e2, h⟩ := bind_ok_inv h
  obtain ⟨r3, e3, h⟩ := bind_ok_inv h
  obtain ⟨r4, e4, h⟩ := bind_ok_inv h
  obtain ⟨r5, e5, h⟩ := bind_ok_inv h
  have hb0 : ({ s with data_length := 0 } : http_response_t).data_length ≤
      ({ s with data_length := 0 } : http_response_t).data.length := Int.ofNat_nonneg _
  obtain ⟨b1, i1, _⟩ := add_str_inv e1 hb0
  obtain ⟨b2, i2, _⟩ := add_str_inv (s := " ".toList) e2 i1
  obtain ⟨b3, i3, _⟩ := add_str_inv e3 i2
  obtain ⟨b4, i4, _⟩ := add_str_inv (s := " ".toList) e4 i3
  obtain ⟨b5, i5, _⟩ := add_str_inv e5 i4
  obtain ⟨b6, i6, _⟩ := add_str_inv (s := "\r\n".toList) h i5
  refine ⟨hc.1, hc.2, ?_, i6⟩
  rw [b6, b5, b4, b3, b2, b1]
  rfl

/-- Whatever state `http_response_reverse_request_init` starts from, when it
succeeds the bytes are the request line. -/
theorem reverse_request_init_bytes {s r : http_response_t} {method url protocol : List Char}
    (h : http_response_reverse_request_init s method url protocol = .ok r) :
    bytes r = method ++ " ".toList ++ url ++ " ".toList ++ protocol ++ "\r\n".toList ∧
    r.data_length ≤ r.data.length := by
  unfold http_response_reverse_request_init at h
  obtain ⟨r1, e1, h⟩ := bind_ok_inv h
  obtain ⟨r2, e2, h⟩ := bind_ok_inv h
  obtain ⟨r3, e3, h⟩ := bind_ok_inv h
  obtain ⟨r4, e4, h⟩ := bind_ok_inv h
  obtain ⟨r5, e5, h⟩ := bind_ok_inv h
  have hb0 : ({ s with data_length := 0 } : http_response_t).data_length ≤
      ({ s with data_length := 0 } : http_response_t).data.length := Int.ofNat_nonneg _
  obtain ⟨b1, i1, _⟩ := add_str_inv e1 hb0
  obtain ⟨b2, i2, _⟩ := add_str_inv (s := " ".toList) e2 i1
  obtain ⟨b3, i3, _⟩ := add_str_inv e3 i2
  obtain ⟨b4, i4, _⟩ := add_str_inv (s := " ".toList) e4 i3
  obtain ⟨b5, i5, _⟩ := add_str_inv e5 i4
  obtain ⟨b6, i6, _⟩ := add_str_inv (s := "\r\n".toList) h i5
  refine ⟨?_, i6⟩
  rw [b6, b5, b4, b3, b2, b1]
  rfl

/-- When `http_response_add_header` succeeds on a state whose bytes lie inside
the block, the bytes afterwards are the bytes before and the header line. -/
theorem add_header_bytes {r r' : http_response_t} {name value : List Char}
    (h : http_response_add_header r name value = .ok r') (hb : r.data_length ≤ r.data.length) :
    bytes r' = bytes r ++ name ++ ": ".toList ++ value ++ "\r\n".toList ∧
    r'.data_length ≤ r'.data.length := by
  unfold http_response_add_header at h
  obtain ⟨r1, e1, h⟩ := bind_ok_inv h
  obtain ⟨r2, e2, h⟩ := bind_ok_inv h
  obtain ⟨r3, e3, h⟩ := bind_ok_inv h
  obtain ⟨b1, i1, _⟩ := add_str_inv e1 hb
  obtain ⟨b2, i2, _⟩ := add_str_inv (s := ": ".toList) e2 i1
  obtain ⟨b3, i3, _⟩ := add_str_inv e3 i2
  obtain ⟨b4, i4, _⟩ := add_str_inv (s := "\r\n".toList) h i3
  refine ⟨?_, i4⟩
  rw [b4, b3, b2, b1]

theorem digit_char_plain : ∀ k : Fin 10,
    Nat.digitChar k.val ≠ '\r' ∧ Nat.digitChar k.val ≠ '\n' := by
  decide

/-- The digits of a status code hold no CR and no LF. -/
theorem digits_plain (c : Int) (h1 : 100 ≤ c) (h2 : c < 1000) :
    '\r' ∉ Nat.toDigits 10 c.toNat ∧ '\n' ∉ Nat.toDigits 10 c.toNat := by
  obtain ⟨_, hc2, _, _⟩ := codestr_digits c h1 h2
  have a := digit_char_plain ⟨c.toNat / 100, by omega⟩
  have b := digit_char_plain ⟨c.toNat / 10 % 10, by omega⟩
  have d := digit_char_plain ⟨c.toNat % 10, by omega⟩
  rw [hc2]
  simp only [List.mem_cons, List.mem_singleton, List.not_mem_nil, or_false, not_or]
  exact ⟨⟨a.1.symm, b.1.symm, d.1.symm⟩, ⟨a.2.symm, b.2.symm, d.2.symm⟩⟩

theorem crlf_lines_snoc (ls : List (List Char)) (l : List Char) :
    crlf_lines (ls ++ [l]) = crlf_lines ls ++ l ++ "\r\n".toList := by
  induction ls with
  | nil => simp [crlf_lines]
  | cons x xs ih =>
    show x ++ "\r\n".toList ++ crlf_lines (xs ++ [l]) = _
    rw [ih]
    simp only [crlf_lines, List.append_assoc]

/-- The invariant behind the claim on well-formed lines: the bytes lie inside
the block and are the text of one or more lines without CR or LF, each
closed by `"\r\n"`. -/
theorem clean_headers_lines {r : http_response_t} (h : CleanHeaders r) :
    r.data_length ≤ r.data.length ∧
    ∃ (ls : List (List Char)) (l : List Char),
      (∀ x ∈ ls ++ [l], '\r' ∉ x ∧ '\n' ∉ x) ∧ bytes r = crlf_lines (ls ++ [l]) := by
  induction h with
  | init s r protocol code message hp hm h =>
    obtain ⟨h1, h2, b, i⟩ := init_bytes h
    obtain ⟨d1, d2⟩ := digits_plain code h1 h2
    refine ⟨i, [], protocol ++ " ".toList ++ Nat.toDigits 10 code.toNat ++ " ".toList ++ message,
      ?_, ?_⟩
    · intro x hx
      simp only [List.nil_append, List.mem_singleton] at hx
      subst hx
      simp only [List.mem_append, not_or]
      exact ⟨⟨⟨⟨⟨hp.2.1, by decide⟩, d1⟩, by decide⟩, hm.2.1⟩,
        ⟨⟨⟨⟨hp.2.2, by decide⟩, d2⟩, by decide⟩, hm.2.2⟩⟩
    · rw [b, crlf_lines_snoc]
      rfl
  | reverse_request_init s r method url protocol hm hu hp h =>
    obtain ⟨b, i⟩ := reverse_request_init_bytes h
    refine ⟨i, [], method ++ " ".toList ++ url ++ " ".toList ++ protocol, ?_, ?_⟩
    · intro x hx
      simp only [List.nil_append, List.mem_singleton] at hx
      subst hx
      simp only [List.mem_append, not_or]
      exact ⟨⟨⟨⟨⟨hm.2.1, by decide⟩, hu.2.1⟩, by decide⟩, hp.2.1⟩,
        ⟨⟨⟨⟨hm.2.2, by decide⟩, hu.2.2⟩, by decide⟩, hp.2.2⟩⟩
    · rw [b, crlf_lines_snoc]
      rfl
  | add_header r r' name value _ hn hv h ih =>
    obtain ⟨i, ls, l, hcl, b⟩ := ih
    obtain ⟨b', i'⟩ := add_header_bytes h i
    refine ⟨i', ls ++ [l], name ++ ": ".toList ++ value, ?_, ?_⟩
    · intro x hx
      rw [List.mem_append] at hx
      rcases hx with hx | hx
      · exact hcl x hx
      · simp only [List.mem_singleton] at hx
        subst hx
        simp only [List.mem_append, not_or]
        exact ⟨⟨⟨hn.2.1, by decide⟩, hv.2.1⟩, ⟨⟨hn.2.2, by decide⟩, hv.2.2⟩⟩
    · rw [b', b, crlf_lines_snoc (ls ++ [l])]
      simp only [List.append_assoc]

/-- Between initialisation and finish the bytes end in `"\r\n"`. -/
theorem in_headers_crlf {r : http_response_t} (h : InHeaders r) :
    ∃ front : List Char, bytes r = front ++ "\r\n".toList := by
  cases h with
  | init s r protocol code message hs h => exact ⟨_, (init_bytes h).2.2.1⟩
  | reverse_request_init s r method url protocol hs h =>
    exact ⟨_, (reverse_request_init_bytes h).1⟩
  | add_header r0 r name value h0 h =>
    exact ⟨_, (add_header_bytes h (in_headers_tidy h0).2.2).1⟩

/-- `Content-Type` cannot stand at the very end of bytes that end in `"\r\n"`. -/
theorem not_at_end (front s : List Char)
    (h : front ++ "\r\n".toList = s ++ "Content-Type".toList) : False := by
  have h' := congrArg (fun l => l.reverse.head?) h
  simp only [List.reverse_append] at h'
  have h2 : (some '\n' : Option Char) = some 'e' := h'
  exact absurd h2 (by decide)

/-- The search of `http_response_finish` between initialisation and finish: it
ends without touching a byte at or beyond `data_length` (it runs the same on
the block cut to `data_length` bytes), and it finds `Content-Type` exactly
when the text occurs somewhere in the bytes `[0, data_length)`: the start
offset `data_length - 12`, which the loop leaves out, cannot hold it. -/
theorem finish_scan_exact (r : http_response_t) (hr : InHeaders r) :
    ∃ found,
      scan r.data "Content-Type".toList 0
        (r.data_length - strlen "Content-Type".toList).toNat = .ok found ∧
      scan (bytes r) "Content-Type".toList 0
        (r.data_length - strlen "Content-Type".toList).toNat = .ok found ∧
      (found = true ↔ "Content-Type".toList <:+: bytes r) := by
  have ht := in_headers_tidy hr
  have hl := bytes_length r ht
  obtain ⟨front, hfront⟩ := in_headers_crlf hr
  obtain ⟨found, e, hiff⟩ := scan_bytes r "Content-Type".toList _ ht.2.1 ht.2.2 rfl
  have hocc : (∃ j, j + "Content-Type".toList.length < (bytes r).length ∧
      ((bytes r).drop j).take "Content-Type".toList.length = "Content-Type".toList) ↔
      "Content-Type".toList <:+: bytes r := by
    constructor
    · rintro ⟨j, _, hj⟩
      exact window_occurs _ _ j hj
    · rintro ⟨s, t, hst⟩
      refine ⟨s.length, ?_, ?_⟩
      · have hlen := congrArg List.length hst
        simp only [List.length_append] at hlen
        have ht0 : t ≠ [] := by
          intro h0
          subst h0
          rw [List.append_nil, hfront] at hst
          exact not_at_end front s hst.symm
        have := List.length_pos.mpr ht0
        omega
      · rw [← hst, List.append_assoc]
        exact window_at s _ t
  refine ⟨found, e, ?_, hiff.trans hocc⟩
  have hk : strlen "Content-Type".toList = 12 := rfl
  have hk' : "Content-Type".toList.length = 12 := rfl
  obtain ⟨found', e', hiff'⟩ := scan_spec (bytes r) "Content-Type".toList
    (r.data_length - strlen "Content-Type".toList).toNat 0 (by omega)
  have hsame : found' = found := by
    have h1 : found' = true ↔ found = true := by
      rw [hiff', hiff]
      constructor
      · rintro ⟨j, _, h2, h3⟩
        exact ⟨j, by omega, h3⟩
      · rintro ⟨j, h2, h3⟩
        exact ⟨j, Nat.zero_le _, by omega, h3⟩
    cases found <;> cases found' <;> simp_all
  rw [e', hsame]

theorem int_op_overflow (x : Int) (h : 2147483647 < x) : int_op x = .error .overflow := by
  have : ¬ (INT_MIN ≤ x ∧ x ≤ INT_MAX) := by
    simp only [INT_MIN, INT_MAX]; omega
  simp only [int_op, this, if_false]

theorem doubling_sum_overflow (S d n : Int) (fuel : Nat) (h : 2147483647 < S + d) :
    doubling S d (fuel + 1) n = .error .overflow := by
  simp only [doubling, int_op_overflow _ h, error_bind]

theorem doubling_double_overflow (S d n : Int) (fuel : Nat) (h1 : -2147483648 ≤ S + d)
    (h2 : S + d ≤ 2147483647) (h : n < S + d) (h3 : 2147483647 < n * 2) :
    doubling S d (fuel + 1) n = .error .overflow := by
  simp only [doubling, int_op_ok _ h1 h2, ok_bind, gt_iff_lt, h, if_true, int_op_overflow _ h3,
    error_bind]

/-- The loop from `data_size * 2^j` when the least sufficient power stays inside
`int`: it doubles up to that power and exits with it. -/
theorem doubling_reaches (S d : Int) (k : Nat) (hS : 0 < S) (hd : 0 < d)
    (hmin : ∀ j, j < k → S * 2 ^ j < S + d) (hk : S + d ≤ S * 2 ^ k)
    (hin : S * 2 ^ k ≤ 2147483647) :
    ∀ (n j fuel : Nat), j + n = k → n < fuel →
      doubling S d fuel (S * 2 ^ j) = .ok (S * 2 ^ k) := by
  intro n
  induction n with
  | zero =>
    intro j fuel hj hf
    have : j = k := by omega
    subst this
    obtain ⟨f, rfl⟩ : ∃ f, fuel = f + 1 := ⟨fuel - 1, by omega⟩
    exact doubling_exit S d _ f (by omega) (by omega) hk
  | succ n ih =>
    intro j fuel hj hf
    obtain ⟨f, rfl⟩ : ∃ f, fuel = f + 1 := ⟨fuel - 1, by omega⟩
    have hlt : S * 2 ^ j < S + d := hmin j (by omega)
    have hpos : 0 < S * 2 ^ j := Int.mul_pos hS (by positivity)
    have hnext : S * 2 ^ j * 2 = S * 2 ^ (j + 1) := by rw [pow_succ, Int.mul_assoc]
    have hle : S * 2 ^ (j + 1) ≤ 2147483647 := by
      by_cases hc : j + 1 = k
      · rw [hc]; exact hin
      · have := hmin (j + 1) (by omega)
        omega
    have hsum : S + d ≤ 2147483647 := by
      have := hk
      omega
    rw [doubling_step S d _ f (by omega) hsum hlt (by omega) (by rw [hnext]; exact hle), hnext]
    exact ih (j + 1) f (by omega) (by omega)

/-- The loop from `data_size * 2^j` when the least sufficient power lies beyond
`int`: the doubling that would reach it overflows. -/
theorem doubling_overflows (S d : Int) (k : Nat) (hS : 0 < S) (hd : 0 < d)
    (hmin : ∀ j, j < k → S * 2 ^ j < S + d) (hsum : S + d ≤ 2147483647)
    (hout : 2147483647 < S * 2 ^ k) :
    ∀ (n j fuel : Nat), j + (n + 1) = k → n < fuel →
      doubling S d fuel (S * 2 ^ j) = .error .overflow := by
  intro n
  induction n with
  | zero =>
    intro j fuel hj hf
    obtain ⟨f, rfl⟩ : ∃ f, fuel = f + 1 := ⟨fuel - 1, by omega⟩
    have hlt : S * 2 ^ j < S + d := hmin j (by omega)
    have hnext : S * 2 ^ j * 2 = S * 2 ^ k := by
      rw [← hj, pow_succ, Int.mul_assoc]
    exact doubling_double_overflow S d _ f (by omega) hsum hlt (by rw [hnext]; exact hout)
  | succ n ih =>
    intro j fuel hj hf
    obtain ⟨f, rfl⟩ : ∃ f, fuel = f + 1 := ⟨fuel - 1, by omega⟩
    have hlt : S * 2 ^ j < S + d := hmin j (by omega)
    have hpos : 0 < S * 2 ^ j := Int.mul_pos hS (by positivity)
    have hnext : S * 2 ^ j * 2 = S * 2 ^ (j + 1) := by rw [pow_succ, Int.mul_assoc]
    have hle : S * 2 ^ (j + 1) < S + d := hmin (j + 1) (by omega)
    rw [doubling_step S d _ f (by omega) hsum hlt (by omega) (by rw [hnext]; omega), hnext]
    exact ih (j + 1) f (by omega) (by omega)

/-- Some power of two times a positive `data_size` is at least
`data_size + datalen`. -/
theorem sufficient_power (S d : Int) (hS : 0 < S) : ∃ k : Nat, S + d ≤ S * 2 ^ k := by
  refine ⟨(S + d).toNat, ?_⟩
  have h1 : ((S + d).toNat : Int) < 2 ^ (S + d).toNat := by
    exact_mod_cast Nat.lt_two_pow (S + d).toNat
  have h2 : (0 : Int) < 2 ^ (S + d).toNat := by positivity
  have h3 : (1 : Int) * 2 ^ (S + d).toNat ≤ S * 2 ^ (S + d).toNat :=
    Int.mul_le_mul_of_nonneg_right (by omega) (le_of_lt h2)
  omega

/-- While `data_size * 2^j` is inside `int`, `j` is at most 30. -/
theorem power_small (S : Int) (j : Nat) (hS : 0 < S) (h : S * 2 ^ j ≤ 2147483647) : j ≤ 30 := by
  by_contra hc
  have h1 : (2 : Int) ^ 31 ≤ 2 ^ j := pow_le_pow_right₀ (by norm_num) (by omega)
  have h2 : (0 : Int) < 2 ^ j := by positivity
  have h3 : (1 : Int) * 2 ^ j ≤ S * 2 ^ j :=
    Int.mul_le_mul_of_nonneg_right (by omega) (le_of_lt h2)
  have h4 : (2 : Int) ^ 31 = 2147483648 := by norm_num
  omega

theorem init_size {s r : http_response_t} {protocol message : List Char} {code : Int}
    (h : http_response_init s protocol code message = .ok r) : r.data_size = s.data_size := by
  unfold http_response_init at h
  obtain ⟨_, _, h⟩ := bind_ok_inv h
  obtain ⟨r1, e1, h⟩ := bind_ok_inv h
  obtain ⟨r2, e2, h⟩ := bind_ok_inv h
  obtain ⟨r3, e3, h⟩ := bind_ok_inv h
  obtain ⟨r4, e4, h⟩ := bind_ok_inv h
  obtain ⟨r5, e5, h⟩ := bind_ok_inv h
  rw [add_data_size h, add_data_size e5, add_data_size e4, add_data_size e3, add_data_size e2,
    add_data_size e1]

theorem reverse_request_init_size {s r : http_response_t} {method url protocol : List Char}
    (h : http_response_reverse_request_init s method url protocol = .ok r) :
    r.data_size = s.data_size := by
  unfold http_response_reverse_request_init at h
  obtain ⟨r1, e1, h⟩ := bind_ok_inv h
  obtain ⟨r2, e2, h⟩ := bind_ok_inv h
  obtain ⟨r3, e3, h⟩ := bind_ok_inv h
  obtain ⟨r4, e4, h⟩ := bind_ok_inv h
  obtain ⟨r5, e5, h⟩ := bind_ok_inv h
  rw [add_data_size h, add_data_size e5, add_data_size e4, add_data_size e3, add_data_size e2,
    add_data_size e1]

theorem add_header_size {r r' : http_response_t} {name value : List Char}
    (h : http_response_add_header r name value = .ok r') : r'.data_size = r.data_size := by
  unfold http_response_add_header at h
  obtain ⟨r1, e1, h⟩ := bind_ok_inv h
  obtain ⟨r2, e2, h⟩ := bind_ok_inv h
  obtain ⟨r3, e3, h⟩ := bind_ok_inv h
  rw [add_data_size h, add_data_size e3, add_data_size e2, add_data_size e1]

theorem finish_with_body_size {r r' : http_response_t} {body : List Char} {d : Int}
    (h : finish_with_body r body d = .ok r') : r'.data_size = r.data_size := by
  unfold finish_with_body at h
  obtain ⟨r1, e1, h⟩ := bind_ok_inv h
  obtain ⟨r2, e2, h⟩ := bind_ok_inv h
  obtain ⟨r3, e3, h⟩ := bind_ok_inv h
  obtain ⟨r4, e4, h⟩ := bind_ok_inv h
  rw [add_data_size h, add_data_size e4, add_data_size e3, add_data_size e2, add_data_size e1]

theorem finish_without_body_size {r r' : http_response_t}
    (h : finish_without_body r = .ok r') : r'.data_size = r.data_size := by
  unfold finish_without_body at h
  obtain ⟨stop, _, h⟩ := bind_ok_inv h
  obtain ⟨found, _, h⟩ := bind_ok_inv h
  obtain ⟨r2, e2, h⟩ := bind_ok_inv h
  rw [add_data_size h]
  cases found with
  | false => cases e2; rfl
  | true =>
    obtain ⟨r1, e1, e2⟩ := bind_ok_inv e2
    rw [add_data_size e2, add_data_size e1]

theorem finish_size {r r' : http_response_t} {data : Option (List Char)} {d : Int}
    (h : http_response_finish r data d = .ok r') : r'.data_size = r.data_size := by
  unfold http_response_finish at h
  obtain ⟨_, _, h⟩ := bind_ok_inv h
  obtain ⟨r1, e1, h⟩ := bind_ok_inv h
  cases h
  show r1.data_size = r.data_size
  split at e1
  · exact finish_with_body_size e1
  · exact finish_without_body_size e1

/-- No call writes `data_size`. -/
theorem do_call_size {r r' : http_response_t} {c : Call} (h : do_call r c = .ok r') :
    r'.data_size = r.data_size := by
  cases c with
  | init protocol code message => exact init_size h
  | reverse_request_init method url protocol => exact reverse_request_init_size h
  | add_header name value => exact add_header_size h
  | finish data datalen => exact finish_size h
  | set_disconnect disconnect => cases h; rfl

theorem do_calls_size (calls : List Call) :
    ∀ {r r' : http_response_t}, do_calls r calls = .ok r' → r'.data_size = r.data_size := by
  induction calls with
  | nil => intro r r' h; cases h; rfl
  | cons c rest ih =>
    intro r r' h
    unfold do_calls at h
    obtain ⟨r1, e1, h⟩ := bind_ok_inv h
    rw [ih h, do_call_size e1]

theorem clean_replicate (n : Nat) (c : Char) (hn : 0 < n) (h1 : c ≠ '\r') (h2 : c ≠ '\n') :
    Clean (List.replicate n c) := by
  refine ⟨replicate_ne_nil n c hn, ?_, ?_⟩
  · intro h
    exact h1 (List.eq_of_mem_replicate h).symm
  · intro h
    exact h2 (List.eq_of_mem_replicate h).symm

/-- After an init and any number of `http_response_add_header` calls without fault, on
arguments that are not empty and hold no CR or LF, the bytes `[0, data_length)`
are the text of one or more lines, each without CR or LF and closed by
`"\r\n"`; the buffer is not empty and its last two bytes are `"\r\n"`. -/
theorem lines_well_formed (r : http_response_t) (h : CleanHeaders r) :
    (∃ ls : List (List Char), ls ≠ [] ∧ (∀ l ∈ ls, '\r' ∉ l ∧ '\n' ∉ l) ∧
      bytes r = crlf_lines ls) ∧
    bytes r ≠ [] ∧ "\r\n".toList <:+ bytes r := by
  obtain ⟨_, ls, l, hcl, b⟩ := clean_headers_lines h
  have hs : "\r\n".toList <:+ bytes r := by
    rw [b, crlf_lines_snoc]
    exact List.suffix_append _ _
  refine ⟨⟨ls ++ [l], by simp, hcl, b⟩, ?_, hs⟩
  intro hnil
  rw [hnil] at hs
  have := List.eq_nil_of_suffix_nil hs
  exact absurd this (by decide)

/-! The claims -/

/-- C1: on a freshly created builder, `http_response_init("HTTP/1.1", c, "OK")`
with `100 <= c < 1000` followed by `http_response_finish` with `datalen = 0`
leaves exactly `"HTTP/1.1 "`, the three decimal digits of `c` (the first of
them not `0`), and `" OK\r\n\r\n"` in the bytes `[0, data_length)`; the
four-byte `codestr` truncates nothing. -/
theorem status_line_exact (c : Int) (h1 : 100 ≤ c) (h2 : c < 1000)
    (body : Option (List Char)) :
    ∃ r r', http_response_init http_response_create "HTTP/1.1".toList c "OK".toList = .ok r ∧
      http_response_finish r body 0 = .ok r' ∧
      bytes r' = "HTTP/1.1 ".toList ++
        [Nat.digitChar (c.toNat / 100), Nat.digitChar (c.toNat / 10 % 10),
          Nat.digitChar (c.toNat % 10)] ++ " OK\r\n\r\n".toList ∧
      Nat.digitChar (c.toNat / 100) ≠ '0' ∧ r'.data_length = 19 := by
  obtain ⟨_, hc2, hc3, _⟩ := codestr_digits c h1 h2
  obtain ⟨r, r', e1, e2, b, _, l, _⟩ := first_cycle c h1 h2 body
  exact ⟨r, r', e1, e2, by rw [b, hc2], hc3, l⟩

theorem status_line_exact_witness :
    (100 : Int) ≤ 404 ∧ (404 : Int) < 1000 ∧
    ∃ r r', http_response_init http_response_create "HTTP/1.1".toList 404 "OK".toList = .ok r ∧
      http_response_finish r none 0 = .ok r' ∧
      bytes r' = "HTTP/1.1 ".toList ++
        [Nat.digitChar ((404 : Int).toNat / 100), Nat.digitChar ((404 : Int).toNat / 10 % 10),
          Nat.digitChar ((404 : Int).toNat % 10)] ++ " OK\r\n\r\n".toList ∧
      Nat.digitChar ((404 : Int).toNat / 100) ≠ '0' ∧ r'.data_length = 19 :=
  ⟨by decide, by decide, status_line_exact 404 (by decide) (by decide) none⟩

/-- C2 (the code departs from the claim): with a header block of 2040 bytes,
reached by `http_response_init` and one `http_response_add_header` without
fault, `http_response_finish` with the two-byte body `"hi"` does not leave
`P ++ "Content-Length: 2\r\n\r\nhi"`: the append of `"Content-Length"`
reallocates the block to 2048 bytes and `memcpy` then writes bytes 2040 to
2053, outside the block. -/
theorem finish_with_body_overruns_block :
    (http_response_init http_response_create "HTTP/1.1".toList 200 "OK".toList >>= fun r =>
      http_response_add_header r "X-Padding".toList (List.replicate 2010 'a')).map
        (fun r => (r.data_length, r.data.length)) = .ok (2040, 2048) ∧
    (http_response_init http_response_create "HTTP/1.1".toList 200 "OK".toList >>= fun r =>
      http_response_add_header r "X-Padding".toList (List.replicate 2010 'a') >>= fun r =>
      http_response_finish r (some "hi".toList) 2) = .error .bounds := by
  obtain ⟨r1, e1, _, l1, t1⟩ := first_line_200
  have kn : ("X-Padding".toList.length : Int) = 9 := rfl
  have kv : ((List.replicate 2010 'a').length : Int) = 2010 := by
    rw [List.length_replicate]; rfl
  obtain ⟨r2, e2, _, l2, t2, g2, _⟩ := add_header_fits r1 "X-Padding".toList
    (List.replicate 2010 'a') t1 (by decide) (replicate_ne_nil _ _ (by decide)) (by omega)
  have e3 := finish_body_overrun r2 "hi".toList 2 t2 (by decide) (by omega)
  have hl : r2.data_length = 2040 := by omega
  have hg : r2.data.length = 2048 := by omega
  constructor
  · rw [e1, ok_bind, e2]
    show Except.ok (r2.data_length, r2.data.length) = _
    rw [hl, hg]
  · rw [e1, ok_bind, e2, ok_bind, e3]

/-- C3 (the code departs from the claim): one header with a value of 2100
bytes, no `Content-Type` anywhere, and the sequence init, add_header, finish
with an empty body yields no bytes at all: the `"\r\n"` that ends the header
line is copied to offset 2128 of a block that `realloc` has just cut to 2048
bytes. -/
theorem header_block_overruns_block :
    (http_response_init http_response_create "HTTP/1.1".toList 200 "OK".toList >>= fun r =>
      add_headers r [("X-Padding".toList, List.replicate 2100 'a')] >>= fun r =>
      http_response_finish r none 0) = .error .bounds ∧
    (http_response_init http_response_create "HTTP/1.1".toList 200 "OK".toList >>= fun r =>
      add_headers r [("X-Padding".toList, List.replicate 2100 'a')]) = .error .bounds := by
  obtain ⟨r1, e1, _, l1, t1⟩ := first_line_200
  have kn : ("X-Padding".toList.length : Int) = 9 := rfl
  have kv : ((List.replicate 2100 'a').length : Int) = 2100 := by
    rw [List.length_replicate]; rfl
  have e2 : http_response_add_header r1 "X-Padding".toList (List.replicate 2100 'a') =
      .error .bounds :=
    add_header_overrun r1 _ _ t1 (by decide) (replicate_ne_nil _ _ (by decide)) (by omega)
      (by omega) (by rw [kv, show grown 2100 = 4096 from rfl]; omega) (by omega)
  have e3 : add_headers r1 [("X-Padding".toList, List.replicate 2100 'a')] = .error .bounds := by
    simp only [add_headers, e2, error_bind]
  constructor
  · rw [e1, ok_bind, e3, error_bind]
  · rw [e1, ok_bind, e3]

/-- C4 (the code departs from the claim): after the headers
`("Content-Type", "text/plain")` and a padding header, 2036 bytes in all and
reached without fault, `http_response_finish` with an empty body finds
`Content-Type` and appends nothing: the copy of `"Content-Length: 0"` would go
up to byte 2053 of a block of 2048 bytes. -/
theorem content_length_line_overruns_block :
    (http_response_init http_response_create "HTTP/1.1".toList 200 "OK".toList >>= fun r =>
      add_headers r [("Content-Type".toList, "text/plain".toList),
        ("X-Padding".toList, List.replicate 1980 'a')]).map
        (fun r => (r.data_length, r.data.length)) = .ok (2036, 2048) ∧
    (http_response_init http_response_create "HTTP/1.1".toList 200 "OK".toList >>= fun r =>
      add_headers r [("Content-Type".toList, "text/plain".toList),
        ("X-Padding".toList, List.replicate 1980 'a')] >>= fun r =>
      http_response_finish r none 0) = .error .bounds := by
  obtain ⟨r1, e1, b1, l1, t1⟩ := first_line_200
  have kt : ("Content-Type".toList.length : Int) = 12 := rfl
  have kp : ("text/plain".toList.length : Int) = 10 := rfl
  have kn : ("X-Padding".toList.length : Int) = 9 := rfl
  have kv : ((List.replicate 1980 'a').length : Int) = 1980 := by
    rw [List.length_replicate]; rfl
  obtain ⟨r2, e2, b2, l2, t2, _, _⟩ := add_header_fits r1 "Content-Type".toList
    "text/plain".toList t1 (by decide) (by decide) (by omega)
  obtain ⟨r3, e3, b3, l3, t3, g3, _⟩ := add_header_fits r2 "X-Padding".toList
    (List.replicate 1980 'a') t2 (by decide) (replicate_ne_nil _ _ (by decide)) (by omega)
  have hl : r3.data_length = 2036 := by omega
  have hg : r3.data.length = 2048 := by omega
  have e23 : add_headers r1 [("Content-Type".toList, "text/plain".toList),
      ("X-Padding".toList, List.replicate 1980 'a')] = .ok r3 := by
    simp only [add_headers, e2, ok_bind, e3]
    rfl
  have hyes : ∃ j, j + "Content-Type".toList.length < (bytes r3).length ∧
      ((bytes r3).drop j).take "Content-Type".toList.length = "Content-Type".toList := by
    have hbl := bytes_length r3 t3
    refine ⟨(bytes r1).length, ?_, ?_⟩
    · have := bytes_length r1 t1
      omega
    · rw [b3, b2]
      simp only [List.append_assoc]
      exact window_at _ _ _
  have e4 := finish_empty_overrun r3 none t3 hyes (by omega) (by omega)
  constructor
  · rw [e1, ok_bind, e23]
    show Except.ok (r3.data_length, r3.data.length) = _
    rw [hl, hg]
  · rw [e1, ok_bind, e23, ok_bind, e4]

/-- C5, as stated, fails: no header is named `Content-Type`, the value of
`X-Info` is the text `Content-Type`, and `http_response_finish` with an empty
body appends the `Content-Length: 0` line before the blank line. -/
theorem content_type_in_value_injects :
    (http_response_init http_response_create "HTTP/1.1".toList 200 "OK".toList >>= fun r =>
      http_response_add_header r "X-Info".toList "Content-Type".toList >>= fun r =>
      http_response_finish r none 0).map bytes =
      .ok "HTTP/1.1 200 OK\r\nX-Info: Content-Type\r\nContent-Length: 0\r\n\r\n".toList ∧
    (http_response_init http_response_create "HTTP/1.1".toList 200 "OK".toList >>= fun r =>
      http_response_add_header r "X-Info".toList "Content-Type".toList >>= fun r =>
      http_response_finish r none 0).map bytes ≠
      .ok "HTTP/1.1 200 OK\r\nX-Info: Content-Type\r\n\r\n".toList := by
  obtain ⟨r1, e1, b1, l1, t1⟩ := first_line_200
  have kt : ("Content-Type".toList.length : Int) = 12 := rfl
  have kn : ("X-Info".toList.length : Int) = 6 := rfl
  obtain ⟨r2, e2, b2, l2, t2, _, _⟩ := add_header_fits r1 "X-Info".toList
    "Content-Type".toList t1 (by decide) (by decide) (by omega)
  have hb2 : bytes r2 = "HTTP/1.1 200 OK\r\nX-Info: Content-Type\r\n".toList := by
    rw [b2, b1]; rfl
  have hyes : ∃ j, j + "Content-Type".toList.length < (bytes r2).length ∧
      ((bytes r2).drop j).take "Content-Type".toList.length = "Content-Type".toList := by
    rw [hb2]
    exact ⟨25, by decide, by decide⟩
  obtain ⟨r3, e3, b3, _⟩ := finish_empty_inject r2 none t2 hyes (by omega)
  have hb3 : bytes r3 =
      "HTTP/1.1 200 OK\r\nX-Info: Content-Type\r\nContent-Length: 0\r\n\r\n".toList := by
    rw [b3, hb2]; rfl
  have e : (http_response_init http_response_create "HTTP/1.1".toList 200 "OK".toList >>=
      fun r => http_response_add_header r "X-Info".toList "Content-Type".toList >>= fun r =>
      http_response_finish r none 0).map bytes =
      .ok "HTTP/1.1 200 OK\r\nX-Info: Content-Type\r\nContent-Length: 0\r\n\r\n".toList := by
    rw [e1, ok_bind, e2, ok_bind, e3]
    show Except.ok (bytes r3) = _
    rw [hb3]
  refine ⟨e, ?_⟩
  rw [e]
  decide

/-- C5, amended: for every state reached by an init followed by
`http_response_add_header` calls whose bytes `[0, data_length)` nowhere
contain the text `Content-Type` and number at most 2046,
`http_response_finish` with an empty body appends the terminating `"\r\n"` and
nothing else. -/
theorem finish_plain_without_content_type (r : http_response_t) (body : Option (List Char))
    (hr : InHeaders r) (hno : ¬ "Content-Type".toList <:+: bytes r)
    (hfit : r.data_length ≤ 2046) :
    ∃ r', http_response_finish r body 0 = .ok r' ∧ bytes r' = bytes r ++ "\r\n".toList ∧
      r'.data_length = r.data_length + 2 := by
  have hw : ¬ ∃ j, j + "Content-Type".toList.length < (bytes r).length ∧
      ((bytes r).drop j).take "Content-Type".toList.length = "Content-Type".toList := by
    rintro ⟨j, _, hj⟩
    exact hno (window_occurs _ _ j hj)
  obtain ⟨r', e, b, l, _⟩ := finish_empty_plain r body (in_headers_tidy hr) hw (by omega)
  exact ⟨r', e, b, l⟩

theorem finish_plain_without_content_type_witness :
    InHeaders first_line_state ∧ ¬ "Content-Type".toList <:+: bytes first_line_state ∧
    first_line_state.data_length ≤ 2046 ∧
    ∃ r', http_response_finish first_line_state none 0 = .ok r' ∧
      bytes r' = bytes first_line_state ++ "\r\n".toList ∧
      r'.data_length = first_line_state.data_length + 2 :=
  have h : InHeaders first_line_state :=
    InHeaders.init http_response_create first_line_state "HTTP/1.1".toList 200 "OK".toList rfl
      first_line_state_eq.1
  have hno : ¬ "Content-Type".toList <:+: bytes first_line_state := by
    rw [first_line_state_eq.2.1]; decide
  have hfit : first_line_state.data_length ≤ 2046 := by
    rw [first_line_state_eq.2.2.1]; decide
  ⟨h, hno, hfit, finish_plain_without_content_type first_line_state none h hno hfit⟩

/-- C6 (the code departs from the claim): `data_length <= data_size` holds after
`http_response_create`, and `http_response_finish` with a body of 1100 bytes
breaks it without any fault: `data_length` is 1141 and `data_size` is still
1024, the block itself having been reallocated to 4096 bytes. -/
theorem data_length_exceeds_data_size :
    http_response_create.data_length ≤ http_response_create.data_size ∧
    (http_response_init http_response_create "HTTP/1.1".toList 200 "OK".toList >>= fun r =>
      http_response_finish r (some (List.replicate 1100 'a')) 1100).map
        (fun r => (r.data_length, r.data_size, r.data.length)) = .ok (1141, 1024, 4096) := by
  obtain ⟨r1, e1, _, l1, t1⟩ := first_line_200
  have kb : ((List.replicate 1100 'a').length : Int) = 1100 := by
    rw [List.length_replicate]; rfl
  have kv : ("1100".toList.length : Int) = 4 := rfl
  obtain ⟨r2, e2, _, l2, t2, g2, _⟩ := finish_body_ok r1 (List.replicate 1100 'a')
    "1100".toList 1100 t1 kb.symm (replicate_ne_nil _ _ (by decide)) (by decide) (by decide)
    (by omega) (by omega) (by rw [kb, show grown 1100 = 4096 from rfl]; omega)
  rw [kb, show grown 1100 = 4096 from rfl] at g2
  have hl : r2.data_length = 1141 := by omega
  have hg : r2.data.length = 4096 := by omega
  refine ⟨by decide, ?_⟩
  rw [e1, ok_bind, e2]
  show Except.ok (r2.data_length, r2.data_size, r2.data.length) = _
  rw [hl, hg, t2.1]

/-- C7 (the code departs from the claim): a fragment of 2048 bytes is appended
to a fresh builder, the block growing to 4096 bytes; the append of one more
byte reallocates the block to 2048 bytes and copies the byte to offset 2048,
outside the block, so the two fragments are not in the buffer. -/
theorem fragments_overrun_block :
    (add_fragments http_response_create [List.replicate 2048 'a']).map
        (fun r => (r.data_length, r.data.length)) = .ok (2048, 4096) ∧
    add_fragments http_response_create [List.replicate 2048 'a', ['b']] = .error .bounds := by
  have t0 : Tidy http_response_create := ⟨rfl, le_refl _, Int.ofNat_nonneg _⟩
  have kf : ((List.replicate 2048 'a').length : Int) = 2048 := by
    rw [List.length_replicate]; rfl
  have l0 : http_response_create.data_length = 0 := rfl
  obtain ⟨r1, e1, _, l1, t1, g1, _⟩ := add_str_ok http_response_create
    (List.replicate 2048 'a') t0 (replicate_ne_nil _ _ (by decide)) (by omega)
    (by rw [kf, show grown 2048 = 4096 from rfl, l0]; decide)
  rw [kf, show grown 2048 = 4096 from rfl] at g1
  have hl : r1.data_length = 2048 := by omega
  have hg : r1.data.length = 4096 := by omega
  have e2 : http_response_add_data r1 ['b'] (strlen ['b']) = .error .bounds :=
    add_data_overrun r1 _ _ t1.1 (by decide) (by decide)
      (by rw [show grown (strlen ['b']) = 2048 from rfl, show strlen ['b'] = 1 from rfl]; omega)
  constructor
  · simp only [add_fragments, e1, ok_bind]
    show Except.ok (r1.data_length, r1.data.length) = _
    rw [hl, hg]
  · simp only [add_fragments, e1, ok_bind, e2, error_bind]

/-- C8 (the code departs from the claim): on a fresh builder `http_response_get_data`
after init alone fails its assertion, but after init, finish and a second
init it returns the 24 bytes of the second, unfinished cycle. -/
theorem get_data_after_second_init :
    (http_response_init http_response_create "HTTP/1.1".toList 200 "OK".toList >>= fun r =>
      http_response_get_data r) = .error .assertion ∧
    (http_response_init http_response_create "HTTP/1.1".toList 200 "OK".toList >>= fun r =>
      http_response_finish r none 0 >>= fun r =>
      http_response_init r "HTTP/1.1".toList 404 "Not Found".toList >>= fun r =>
      http_response_get_data r).map (fun p => (p.1.take p.2.toNat, p.2)) =
      .ok ("HTTP/1.1 404 Not Found\r\n".toList, 24) := by
  obtain ⟨r1, r2, e1, e2, _, _, _, _, t2, c1, c2⟩ :=
    first_cycle 200 (by decide) (by decide) none
  obtain ⟨r3, e3, b3, l3, _, c3, _⟩ := init_fits r2 "HTTP/1.1".toList "Not Found".toList 404
    t2.1 (by decide) (by decide) (by decide) (by decide) (by decide)
  have l3' : r3.data_length = 24 := l3
  have hc3 : r3.complete = 1 := by rw [c3, c2]
  have g1 : http_response_get_data r1 = .error .assertion := by
    simp only [http_response_get_data, c_assert, c1]
    rfl
  have g3 : http_response_get_data r3 = .ok (r3.data, r3.data_length) := by
    simp only [http_response_get_data, c_assert, hc3]
    rfl
  constructor
  · rw [e1, ok_bind, g1]
  · rw [e1, ok_bind, e2, ok_bind, e3, ok_bind, g3]
    show Except.ok (bytes r3, r3.data_length) = _
    rw [b3, l3']
    rfl

/-- C9 (the code departs from the claim): on a builder whose `complete` is 1
after a finish, `http_response_init` and `http_response_reverse_request_init`
reset `data_length` and write the first line, and `complete` is still 1. -/
theorem init_keeps_complete :
    (http_response_init http_response_create "HTTP/1.1".toList 200 "OK".toList >>= fun r =>
      http_response_finish r none 0).map (fun r => (r.complete, r.data_length)) = .ok (1, 19) ∧
    (http_response_init http_response_create "HTTP/1.1".toList 200 "OK".toList >>= fun r =>
      http_response_finish r none 0 >>= fun r =>
      http_response_init r "HTTP/1.1".toList 404 "Not Found".toList).map
        (fun r => (r.complete, r.data_length)) = .ok (1, 24) ∧
    (http_response_init http_response_create "HTTP/1.1".toList 200 "OK".toList >>= fun r =>
      http_response_finish r none 0 >>= fun r =>
      http_response_reverse_request_init r "POST".toList "/event".toList
        "HTTP/1.1".toList).map (fun r => (r.complete, r.data_length)) = .ok (1, 22) := by
  obtain ⟨r1, r2, e1, e2, _, _, l2, _, t2, _, c2⟩ :=
    first_cycle 200 (by decide) (by decide) none
  obtain ⟨r3, e3, _, l3, _, c3, _⟩ := init_fits r2 "HTTP/1.1".toList "Not Found".toList 404
    t2.1 (by decide) (by decide) (by decide) (by decide) (by decide)
  obtain ⟨r4, e4, _, l4, _, c4, _⟩ := reverse_request_init_fits r2 "POST".toList
    "/event".toList "HTTP/1.1".toList t2.1 (by decide) (by decide) (by decide) (by decide)
  have l3' : r3.data_length = 24 := l3
  have l4' : r4.data_length = 22 := l4
  refine ⟨?_, ?_, ?_⟩
  · rw [e1, ok_bind, e2]
    show Except.ok (r2.complete, r2.data_length) = _
    rw [c2, l2]
  · rw [e1, ok_bind, e2, ok_bind, e3]
    show Except.ok (r3.complete, r3.data_length) = _
    rw [c3, c2, l3']
  · rw [e1, ok_bind, e2, ok_bind, e4]
    show Except.ok (r4.complete, r4.data_length) = _
    rw [c4, c2, l4']

/-- C10: for every prior state of a builder (capacity field 1024 as
`http_response_create` sets it; flags, `data_length` and block arbitrary) and
every input of a cycle, `http_response_init`, the `http_response_add_header`
calls and `http_response_finish` have the same outcome as on a freshly created
builder: the same fault, or states with the same bytes `[0, data_length)` and
the same `data_length`. -/
theorem reuse_independent (s : http_response_t) (hs : s.data_size = 1024)
    (protocol : List Char) (code : Int) (message : List Char)
    (headers : List (List Char × List Char)) (body : Option (List Char)) (datalen : Int) :
    (run_cycle s protocol code message headers body datalen).map observe =
      (run_cycle http_response_create protocol code message headers body datalen).map observe :=
  simres_observe (run_cycle_sim s http_response_create hs _ _ _ _ _ _)

theorem reuse_independent_witness :
    used_state.data_size = 1024 ∧
    (run_cycle used_state "HTTP/1.1".toList 404 "Not Found".toList
        [("Server".toList, "AirTunes/220.68".toList)] (some "gone".toList) 4).map observe =
      (run_cycle http_response_create "HTTP/1.1".toList 404 "Not Found".toList
        [("Server".toList, "AirTunes/220.68".toList)] (some "gone".toList) 4).map observe :=
  ⟨used_state_eq.2.2.2.1.1, reuse_independent used_state used_state_eq.2.2.2.1.1 _ _ _ _ _ _⟩

/-- C11, as stated, fails: with the empty string as value
`http_response_add_header` does not succeed, the append of the value fails the
assertion `datalen > 0` of `http_response_add_data`. -/
theorem empty_value_rejected :
    (http_response_init http_response_create "HTTP/1.1".toList 200 "OK".toList >>= fun r =>
      http_response_add_header r "X-Empty".toList []) = .error .assertion := by
  obtain ⟨r1, e1, _, l1, t1⟩ := first_line_200
  have kn : ("X-Empty".toList.length : Int) = 7 := rfl
  have kcs : (": ".toList.length : Int) = 2 := rfl
  obtain ⟨r2, e2, _, l2, t2, _⟩ := add_str_fits r1 "X-Empty".toList t1 (by decide) (by omega)
  obtain ⟨r3, e3, _, l3, t3, _⟩ := add_str_fits r2 ": ".toList t2 (by decide) (by omega)
  have e3' : http_response_add_data r2 ": ".toList 2 = .ok r3 := e3
  have e4 : http_response_add_data r3 [] (strlen []) = .error .assertion := add_data_empty r3 []
  rw [e1, ok_bind]
  simp only [http_response_add_header, e2, ok_bind, e3', e4, error_bind]

/-- C11, amended: for every header name and value that are not empty, on every
state reached by an init followed by `http_response_add_header` calls where
the new line ends inside the first 2048 bytes, `http_response_add_header`
succeeds and appends exactly `name ++ ": " ++ value ++ "\r\n"` after the bytes
written before, advancing `data_length` by `|name| + |value| + 4`. -/
theorem header_line_appended (r : http_response_t) (name value : List Char)
    (hr : InHeaders r) (hn : name ≠ []) (hv : value ≠ [])
    (hfit : r.data_length + name.length + value.length + 4 ≤ 2048) :
    ∃ r', http_response_add_header r name value = .ok r' ∧
      bytes r' = bytes r ++ name ++ ": ".toList ++ value ++ "\r\n".toList ∧
      r'.data_length = r.data_length + name.length + value.length + 4 := by
  obtain ⟨r', e, b, l, _⟩ := add_header_fits r name value (in_headers_tidy hr) hn hv hfit
  exact ⟨r', e, b, l⟩

theorem header_line_appended_witness :
    InHeaders first_line_state ∧ "Server".toList ≠ [] ∧ "AirTunes/220.68".toList ≠ [] ∧
    first_line_state.data_length + "Server".toList.length + "AirTunes/220.68".toList.length + 4
      ≤ 2048 ∧
    ∃ r', http_response_add_header first_line_state "Server".toList "AirTunes/220.68".toList =
        .ok r' ∧
      bytes r' = bytes first_line_state ++ "Server".toList ++ ": ".toList ++
        "AirTunes/220.68".toList ++ "\r\n".toList ∧
      r'.data_length = first_line_state.data_length + "Server".toList.length +
        "AirTunes/220.68".toList.length + 4 :=
  have h : InHeaders first_line_state :=
    InHeaders.init http_response_create first_line_state "HTTP/1.1".toList 200 "OK".toList rfl
      first_line_state_eq.1
  have hfit : first_line_state.data_length + "Server".toList.length +
      "AirTunes/220.68".toList.length + 4 ≤ 2048 := by
    rw [first_line_state_eq.2.2.1]; decide
  ⟨h, by decide, by decide, hfit,
    header_line_appended first_line_state _ _ h (by decide) (by decide) hfit⟩

/-- C12 (the code departs from the claim): with a url of 2100 bytes
`http_response_reverse_request_init` leaves no request line: the url is
appended to a block grown to 4096 bytes, and the space after it is copied to
offset 2105 of a block that `realloc` has just cut to 2048 bytes. -/
theorem request_line_overruns_block :
    http_response_reverse_request_init http_response_create "POST".toList
      (List.replicate 2100 'a') "HTTP/1.1".toList = .error .bounds := by
  have km : ("POST".toList.length : Int) = 4 := rfl
  have ku : ((List.replicate 2100 'a').length : Int) = 2100 := by
    rw [List.length_replicate]; rfl
  exact reverse_request_init_overrun _ _ _ _ rfl (by decide) (replicate_ne_nil _ _ (by decide))
    (by omega) (by omega) (by rw [ku, show grown 2100 = 4096 from rfl]; omega) (by omega)

/-- C14 (the code departs from the claim): the codes 99 and 1000 fail the
assertion, as claimed, but the code 200, in range, with a message of 2100
bytes does not succeed either: the `"\r\n"` after the message is copied to
offset 2113 of a block that `realloc` has just cut to 2048 bytes. -/
theorem init_in_range_overruns_block :
    http_response_init http_response_create "HTTP/1.1".toList 99 "OK".toList =
      .error .assertion ∧
    http_response_init http_response_create "HTTP/1.1".toList 1000 "OK".toList =
      .error .assertion ∧
    http_response_init http_response_create "HTTP/1.1".toList 200 (List.replicate 2100 'a') =
      .error .bounds := by
  have kp : ("HTTP/1.1".toList.length : Int) = 8 := rfl
  have km : ((List.replicate 2100 'a').length : Int) = 2100 := by
    rw [List.length_replicate]; rfl
  refine ⟨rfl, rfl, ?_⟩
  exact init_overrun _ _ _ 200 rfl (by decide) (by decide) (by decide)
    (replicate_ne_nil _ _ (by decide)) (by omega) (by omega)
    (by rw [km, show grown 2100 = 4096 from rfl]; omega) (by omega)

/-- C15: `http_response_get_disconnect` after `http_response_set_disconnect(flag)`
returns 1 for a flag other than 0 and 0 for the flag 0;
`http_response_set_disconnect` leaves `complete`, `data_size`, `data_length`
and the block as they were; and every outcome of `http_response_init`,
`http_response_reverse_request_init`, `http_response_add_header` and
`http_response_finish` that is a state has the `disconnect` of the state
before.  (`http_response_get_disconnect` is a function of the state and
returns no state.) -/
theorem disconnect_frame (r : http_response_t) (flag : Int) (protocol message : List Char)
    (code : Int) (method url name value : List Char) (data : Option (List Char))
    (datalen : Int) :
    http_response_get_disconnect (http_response_set_disconnect r flag) =
      (if flag ≠ 0 then 1 else 0) ∧
    (http_response_set_disconnect r flag).complete = r.complete ∧
    (http_response_set_disconnect r flag).data_size = r.data_size ∧
    (http_response_set_disconnect r flag).data_length = r.data_length ∧
    (http_response_set_disconnect r flag).data = r.data ∧
    (http_response_init r protocol code message).map (fun r' => r'.disconnect) =
      (http_response_init r protocol code message).map (fun _ => r.disconnect) ∧
    (http_response_reverse_request_init r method url protocol).map (fun r' => r'.disconnect) =
      (http_response_reverse_request_init r method url protocol).map
        (fun _ => r.disconnect) ∧
    (http_response_add_header r name value).map (fun r' => r'.disconnect) =
      (http_response_add_header r name value).map (fun _ => r.disconnect) ∧
    (http_response_finish r data datalen).map (fun r' => r'.disconnect) =
      (http_response_finish r data datalen).map (fun _ => r.disconnect) :=
  ⟨rfl, rfl, rfl, rfl, rfl,
    map_const_of_ok fun _ h => init_disconnect h,
    map_const_of_ok fun _ h => reverse_request_init_disconnect h,
    map_const_of_ok fun _ h => add_header_disconnect h,
    map_const_of_ok fun _ h => finish_disconnect h⟩

/-- C16 (the code departs from the claim): the arguments `"HTTP/1.1"`, `"OK"`,
`"X-Trace"` and a value of 2100 letters are not empty and hold no CR or LF,
yet after init and `http_response_add_header` the buffer is not a sequence of
lines closed by `"\r\n"`: the `"\r\n"` of the header line is copied to offset
2126 of a block that `realloc` has just cut to 2048 bytes. -/
theorem clean_header_overruns_block :
    Clean "HTTP/1.1".toList ∧ Clean "OK".toList ∧ Clean "X-Trace".toList ∧
    Clean (List.replicate 2100 'b') ∧
    (http_response_init http_response_create "HTTP/1.1".toList 200 "OK".toList >>= fun r =>
      http_response_add_header r "X-Trace".toList (List.replicate 2100 'b')) =
      .error .bounds := by
  obtain ⟨r1, e1, _, l1, t1⟩ := first_line_200
  have kn : ("X-Trace".toList.length : Int) = 7 := rfl
  have kv : ((List.replicate 2100 'b').length : Int) = 2100 := by
    rw [List.length_replicate]; rfl
  have e2 : http_response_add_header r1 "X-Trace".toList (List.replicate 2100 'b') =
      .error .bounds :=
    add_header_overrun r1 _ _ t1 (by decide) (replicate_ne_nil _ _ (by decide)) (by omega)
      (by omega) (by rw [kv, show grown 2100 = 4096 from rfl]; omega) (by omega)
  refine ⟨⟨by decide, by decide, by decide⟩, ⟨by decide, by decide, by decide⟩,
    ⟨by decide, by decide, by decide⟩,
    clean_replicate 2100 'b' (by decide) (by decide) (by decide), ?_⟩
  rw [e1, ok_bind, e2]

/-- C17 (the code departs from the claim): after an append of 2048 bytes to a
fresh builder `data_length` is 2048; for a further byte the loop of
`http_response_add_data` stops at `newdatasize = 2048`, one less than the
`data_length + datalen = 2049` the copy needs. -/
theorem newdatasize_below_need :
    (add_fragments http_response_create [List.replicate 2048 'a']).map
        (fun r => (doubling r.data_size 1 64 r.data_size, r.data_length + 1)) =
      .ok (.ok 2048, 2049) := by
  have t0 : Tidy http_response_create := ⟨rfl, le_refl _, Int.ofNat_nonneg _⟩
  have kf : ((List.replicate 2048 'a').length : Int) = 2048 := by
    rw [List.length_replicate]; rfl
  have l0 : http_response_create.data_length = 0 := rfl
  obtain ⟨r1, e1, _, l1, t1, _⟩ := add_str_ok http_response_create
    (List.replicate 2048 'a') t0 (replicate_ne_nil _ _ (by decide)) (by omega)
    (by rw [kf, show grown 2048 = 4096 from rfl, l0]; decide)
  have hl : r1.data_length + 1 = 2049 := by omega
  simp only [add_fragments, e1, ok_bind]
  show Except.ok (doubling r1.data_size 1 64 r1.data_size, r1.data_length + 1) = _
  rw [hl, t1.1, doubling_2048 1 (by decide) (by decide)]

/-- C18 (the code departs from the claim): with a `Content-Type` header at
offset 17 and 2038 bytes written, the search does find the text, but
`http_response_finish` injects nothing: the copy of `"Content-Length: 0"`
would go up to byte 2055 of a block of 2048 bytes. -/
theorem found_but_not_injected :
    (http_response_init http_response_create "HTTP/1.1".toList 200 "OK".toList >>= fun r =>
      add_headers r [("Content-Type".toList, "application/x-apple-binary-plist".toList),
        ("X-Padding".toList, List.replicate 1960 'a')]).map
        (fun r => (r.data_length,
          scan r.data "Content-Type".toList 0 (r.data_length - 12).toNat)) =
      .ok (2038, .ok true) ∧
    (http_response_init http_response_create "HTTP/1.1".toList 200 "OK".toList >>= fun r =>
      add_headers r [("Content-Type".toList, "application/x-apple-binary-plist".toList),
        ("X-Padding".toList, List.replicate 1960 'a')] >>= fun r =>
      http_response_finish r none 0) = .error .bounds := by
  obtain ⟨r1, e1, b1, l1, t1⟩ := first_line_200
  have kt : ("Content-Type".toList.length : Int) = 12 := rfl
  have kp : ("application/x-apple-binary-plist".toList.length : Int) = 32 := rfl
  have kn : ("X-Padding".toList.length : Int) = 9 := rfl
  have kv : ((List.replicate 1960 'a').length : Int) = 1960 := by
    rw [List.length_replicate]; rfl
  obtain ⟨r2, e2, b2, l2, t2, _, _⟩ := add_header_fits r1 "Content-Type".toList
    "application/x-apple-binary-plist".toList t1 (by decide) (by decide) (by omega)
  obtain ⟨r3, e3, b3, l3, t3, g3, _⟩ := add_header_fits r2 "X-Padding".toList
    (List.replicate 1960 'a') t2 (by decide) (replicate_ne_nil _ _ (by decide)) (by omega)
  have hl : r3.data_length = 2038 := by omega
  have e23 : add_headers r1 [("Content-Type".toList, "application/x-apple-binary-plist".toList),
      ("X-Padding".toList, List.replicate 1960 'a')] = .ok r3 := by
    simp only [add_headers, e2, ok_bind, e3]
    rfl
  have hyes : ∃ j, j + "Content-Type".toList.length < (bytes r3).length ∧
      ((bytes r3).drop j).take "Content-Type".toList.length = "Content-Type".toList := by
    have hbl := bytes_length r3 t3
    refine ⟨(bytes r1).length, ?_, ?_⟩
    · have := bytes_length r1 t1
      omega
    · rw [b3, b2]
      simp only [List.append_assoc]
      exact window_at _ _ _
  obtain ⟨found, ef, hiff⟩ := scan_bytes r3 "Content-Type".toList (r3.data_length - 12)
    t3.2.1 t3.2.2 rfl
  have hfound : found = true := hiff.mpr hyes
  subst hfound
  have e4 := finish_empty_overrun r3 none t3 hyes (by omega) (by omega)
  constructor
  · rw [e1, ok_bind, e23]
    show Except.ok (r3.data_length, scan r3.data "Content-Type".toList 0
      (r3.data_length - 12).toNat) = _
    rw [ef, hl]
  · rw [e1, ok_bind, e23, ok_bind, e4]

/-- C19: for every `data_size > 0` and `datalen > 0` the loop of
`http_response_add_data` ends, and with `k` the least exponent such that
`data_size * 2^k >= data_size + datalen` its result is `data_size * 2^k`; when
`datalen` exceeds `data_size` it doubles more than once.  Over unbounded
integers that is all; in `int` the same holds as long as `data_size * 2^k`
is at most `INT_MAX`, and beyond that the loop ends in an overflow. -/
theorem doubling_least_power (S d : Int) (hS : 0 < S) (hd : 0 < d) :
    ∃ k : Nat, S + d ≤ S * 2 ^ k ∧ (∀ j, j < k → S * 2 ^ j < S + d) ∧
      doubling S d 64 S =
        (if S * 2 ^ k ≤ INT_MAX then .ok (S * 2 ^ k) else .error .overflow) ∧
      (S < d → 2 ≤ k) := by
  classical
  have hex := sufficient_power S d hS
  refine ⟨Nat.find hex, Nat.find_spec hex, ?_, ?_, ?_⟩
  · intro j hj
    have := Nat.find_min hex hj
    omega
  · have hk := Nat.find_spec hex
    have hmin : ∀ j, j < Nat.find hex → S * 2 ^ j < S + d := by
      intro j hj
      have := Nat.find_min hex hj
      omega
    have hk1 : 1 ≤ Nat.find hex := by
      by_contra hc
      have h0 : Nat.find hex = 0 := by omega
      rw [h0] at hk
      simp only [pow_zero, mul_one] at hk
      omega
    have hstart : doubling S d 64 S = doubling S d 64 (S * 2 ^ 0) := by
      rw [pow_zero, mul_one]
    by_cases hin : S * 2 ^ Nat.find hex ≤ INT_MAX
    · rw [if_pos hin, hstart]
      have hs := power_small S _ hS hin
      exact doubling_reaches S d _ hS hd hmin hk hin (Nat.find hex) 0 64 (by omega) (by omega)
    · rw [if_neg hin]
      simp only [INT_MAX, not_le] at hin
      by_cases hsum : S + d ≤ 2147483647
      · have hprev := hmin (Nat.find hex - 1) (by omega)
        have hs := power_small S (Nat.find hex - 1) hS (by omega)
        rw [hstart]
        exact doubling_overflows S d _ hS hd hmin hsum hin (Nat.find hex - 1) 0 64 (by omega)
          (by omega)
      · exact doubling_sum_overflow S d S 63 (by omega)
  · intro hlt
    by_contra hc
    have hk := Nat.find_spec hex
    have h01 : Nat.find hex = 0 ∨ Nat.find hex = 1 := by omega
    rcases h01 with h0 | h1
    · rw [h0] at hk
      simp only [pow_zero, mul_one] at hk
      omega
    · rw [h1] at hk
      simp only [pow_one] at hk
      omega

theorem doubling_least_power_witness :
    (0 : Int) < 1024 ∧ (0 : Int) < 5000 ∧
    (∃ k : Nat, (1024 : Int) + 5000 ≤ 1024 * 2 ^ k ∧
      (∀ j, j < k → (1024 : Int) * 2 ^ j < 1024 + 5000) ∧
      doubling 1024 5000 64 1024 =
        (if (1024 : Int) * 2 ^ k ≤ INT_MAX then .ok (1024 * 2 ^ k) else .error .overflow) ∧
      ((1024 : Int) < 5000 → 2 ≤ k)) ∧
    doubling 1024 5000 64 1024 = .ok 8192 :=
  ⟨by decide, by decide, doubling_least_power 1024 5000 (by decide) (by decide), by decide⟩

/-- C20: `http_response_create` sets `data_size` to 1024, and after every
sequence of `http_response_init`, `http_response_reverse_request_init`,
`http_response_add_header`, `http_response_finish` and
`http_response_set_disconnect` calls on the created builder that ends without
fault, `data_size` is still 1024, whatever size the block has been
reallocated to. -/
theorem data_size_constant (calls : List Call) (r : http_response_t)
    (h : do_calls http_response_create calls = .ok r) :
    http_response_create.data_size = 1024 ∧ r.data_size = 1024 :=
  ⟨rfl, do_calls_size calls h⟩

theorem data_size_constant_witness :
    do_calls http_response_create
        [.init "HTTP/1.1".toList 200 "OK".toList,
          .finish (some (List.replicate 1100 'a')) 1100] =
      .ok (state_of (do_calls http_response_create
        [.init "HTTP/1.1".toList 200 "OK".toList,
          .finish (some (List.replicate 1100 'a')) 1100])) ∧
    (state_of (do_calls http_response_create
        [.init "HTTP/1.1".toList 200 "OK".toList,
          .finish (some (List.replicate 1100 'a')) 1100])).data.length = 4096 ∧
    http_response_create.data_size = 1024 ∧
    (state_of (do_calls http_response_create
        [.init "HTTP/1.1".toList 200 "OK".toList,
          .finish (some (List.replicate 1100 'a')) 1100])).data_size = 1024 := by
  obtain ⟨r1, e1, _, l1, t1⟩ := first_line_200
  have kb : ((List.replicate 1100 'a').length : Int) = 1100 := by
    rw [List.length_replicate]; rfl
  have kv : ("1100".toList.length : Int) = 4 := rfl
  obtain ⟨r2, e2, _, l2, t2, g2, _⟩ := finish_body_ok r1 (List.replicate 1100 'a')
    "1100".toList 1100 t1 kb.symm (replicate_ne_nil _ _ (by decide)) (by decide) (by decide)
    (by omega) (by omega) (by rw [kb, show grown 1100 = 4096 from rfl]; omega)
  rw [kb, show grown 1100 = 4096 from rfl] at g2
  have e : do_calls http_response_create
      [.init "HTTP/1.1".toList 200 "OK".toList,
        .finish (some (List.replicate 1100 'a')) 1100] = .ok r2 := by
    simp only [do_calls, do_call, e1, ok_bind, e2]
    rfl
  have hs : state_of (do_calls http_response_create
      [.init "HTTP/1.1".toList 200 "OK".toList,
        .finish (some (List.replicate 1100 'a')) 1100]) = r2 := state_of_ok e
  rw [hs]
  exact ⟨e, by omega, data_size_constant _ r2 e⟩

end HttpResponse
